import Mathlib

/-!
Formal model of the `waller` Bitcoin HD-wallet library.

Bytes are modelled as `Nat` values (with `< 256` side conditions where a
statement needs them), byte strings as `List Nat`, and Rust `String`s as Lean
`String`s.  Fallible Rust functions returning `Result` are modelled with
`Except`; a reachable Rust panic is modelled with an `Option` wrapper.

External crates (sha2, ripemd160, hmac-sha512, bs58, num-bigint, secp256k1,
k256, bip0039, serde_json, libarena) are modelled by executable Lean
definitions of the algorithms those crates implement; each such definition
carries a doc comment naming the crate it stands for.  Everything in the
`Waller.Src` part of the development is translated directly from the
repository sources in `src/`.
-/

set_option maxRecDepth 100000

namespace Waller

/-- Big-endian value of a byte list (most significant byte first). -/
def beValue (bs : List Nat) : Nat :=
  bs.foldl (fun a b => a * 256 + b) 0

/-- Little-endian value of a byte list (least significant byte first). -/
def leValue (bs : List Nat) : Nat :=
  bs.foldr (fun b acc => b + 256 * acc) 0

/-- Little-endian digits of `n` in base `b`, with explicit recursion fuel
(enough fuel, e.g. `fuel = n`, yields all digits; trailing digit nonzero). -/
def digitsFuel (b : Nat) : Nat → Nat → List Nat
  | 0, _ => []
  | _ + 1, 0 => []
  | fuel + 1, n + 1 => (n + 1) % b :: digitsFuel b fuel ((n + 1) / b)

/-- Canonical little-endian digits of `n` in base `b` (fuel `n` suffices
because each division step at least halves the value when `2 ≤ b`). -/
def natDigits (b n : Nat) : List Nat :=
  digitsFuel b n n

/-- Value of a little-endian digit list in base `b`. -/
def digitsVal (b : Nat) (ds : List Nat) : Nat :=
  ds.foldr (fun d acc => acc * b + d) 0

/-- Exactly `len` little-endian bytes of `v` (truncating to `v % 256^len`),
the model of Rust's fixed-width `to_le_bytes`. -/
def leBytesFix : Nat → Nat → List Nat
  | 0, _ => []
  | len + 1, v => v % 256 :: leBytesFix len (v / 256)

/-- Exactly `len` big-endian bytes of `v` (truncating), the usual `ser256`
style big-endian encoding used by the specification. -/
def beBytesFix (len v : Nat) : List Nat :=
  (leBytesFix len v).reverse

/-- Minimal big-endian bytes of `v` (empty for `0`). -/
def natToBEBytes (v : Nat) : List Nat :=
  (natDigits 256 v).reverse

/-- Lower-case hexadecimal digit characters. -/
def hexDigits : List Char :=
  "0123456789abcdef".toList

/-- One lower-case hex digit. -/
def hexDigitChar (d : Nat) : Char :=
  hexDigits.getD d '0'

/-- Lower-case hex digits of `n` (no leading zeros, `"0"` for zero). -/
def natToHex (n : Nat) : List Char :=
  match natDigits 16 n with
  | [] => ['0']
  | ds => (ds.map hexDigitChar).reverse

/-- Rust `format!("{:0Nx}", n)`: lower-case hex, left-padded with zeros to a
minimum width (longer values are not truncated). -/
def fmtHexPad (width n : Nat) : String :=
  let ds := natToHex n
  ⟨List.replicate (width - ds.length) '0' ++ ds⟩

/-- Rust `format!("{:02x}", n)`. -/
def fmtHex2 (n : Nat) : String := fmtHexPad 2 n

/-- Rust `format!("{:08x}", n)`. -/
def fmtHex8 (n : Nat) : String := fmtHexPad 8 n

/-- Rust `format!("{:016x}", n)`. -/
def fmtHex16 (n : Nat) : String := fmtHexPad 16 n

/-- Model of the `hex` crate's `hex::encode`: two lower-case digits per byte. -/
def hexEncode (bs : List Nat) : String :=
  ⟨bs.foldr (fun b acc => hexDigitChar (b / 16) :: hexDigitChar (b % 16) :: acc) []⟩

/-- Value of one hex digit character (upper or lower case), if valid. -/
def hexCharVal (c : Char) : Option Nat :=
  if h : (hexDigits.findIdx? (fun d => d = c.toLower)).isSome then
    some ((hexDigits.findIdx? (fun d => d = c.toLower)).get h)
  else none

/-- Model of `hex::decode` on a character list: pairs of hex digits to bytes,
failing on an invalid digit or an odd length. -/
def hexDecodeList : List Char → Option (List Nat)
  | [] => some []
  | [_] => none
  | c1 :: c2 :: rest => do
    let h ← hexCharVal c1
    let l ← hexCharVal c2
    let tail ← hexDecodeList rest
    pure ((h * 16 + l) :: tail)

/-- Model of `hex::decode` on a string. -/
def hexDecode (s : String) : Option (List Nat) :=
  hexDecodeList s.toList

/-- ASCII byte values of a string (the model of Rust `str::as_bytes` for the
ASCII strings this library produces). -/
def asciiBytes (s : String) : List Nat :=
  s.toList.map Char.toNat

/-- Value of a big-endian digit list in base `b` (used by base58 decoding). -/
def beDigitsVal (b : Nat) (ds : List Nat) : Nat :=
  ds.foldl (fun a d => a * b + d) 0

/-- The Bitcoin base58 alphabet, as used by the `bs58` crate. -/
def base58Alphabet : List Char :=
  "123456789ABCDEFGHJKLMNPQRSTUVWXYZabcdefghijkmnopqrstuvwxyz".toList

/-- Character for one base58 digit. -/
def base58Char (d : Nat) : Char :=
  base58Alphabet.getD d '1'

/-- Digit value of one base58 character, if it is in the alphabet. -/
def base58CharVal (c : Char) : Option Nat :=
  base58Alphabet.findIdx? (fun a => a = c)

/-- Model of `bs58::encode`: one `'1'` per leading zero byte, then the
big-endian base58 digits of the value of the byte string. -/
def base58Encode (bs : List Nat) : String :=
  let zeros := (bs.takeWhile (fun b => b == 0)).length
  let v := beValue bs
  ⟨List.replicate zeros '1' ++ ((natDigits 58 v).map base58Char).reverse⟩

/-- Apply a fallible function to every element, failing if any call fails. -/
def mapOptionList (f : α → Option β) : List α → Option (List β)
  | [] => some []
  | a :: t =>
    match f a, mapOptionList f t with
    | some b, some bs => some (b :: bs)
    | _, _ => none

/-- Model of `bs58::decode(..).into_vec()`: fails on a character outside the
alphabet; otherwise one zero byte per leading `'1'`, then the minimal
big-endian bytes of the value of all digits. -/
def base58Decode (s : String) : Option (List Nat) :=
  (mapOptionList base58CharVal s.toList).map fun digits =>
    let zeros := (s.toList.takeWhile (fun c => c == '1')).length
    List.replicate zeros 0 ++ natToBEBytes (beDigitsVal 58 digits)

/-- Split a list into chunks of `n` elements (fuel-driven; `fuel ≥ length`). -/
def chunksGo (n : Nat) : Nat → List α → List (List α)
  | 0, _ => []
  | _ + 1, [] => []
  | fuel + 1, l => l.take n :: chunksGo n fuel (l.drop n)

/-- Split a list into chunks of `n` elements. -/
def chunks (n : Nat) (l : List α) : List (List α) :=
  chunksGo n l.length l

/-- Truncate to a 32-bit word. -/
def m32 (x : Nat) : Nat := x % 4294967296

/-- Truncate to a 64-bit word. -/
def m64 (x : Nat) : Nat := x % 18446744073709551616

/-- 32-bit rotate right. -/
def rotr32 (n x : Nat) : Nat := m32 ((x >>> n) ||| (x <<< (32 - n)))

/-- 64-bit rotate right. -/
def rotr64 (n x : Nat) : Nat := m64 ((x >>> n) ||| (x <<< (64 - n)))

/-- 32-bit bitwise complement. -/
def not32 (x : Nat) : Nat := x ^^^ 4294967295

/-- 64-bit bitwise complement. -/
def not64 (x : Nat) : Nat := x ^^^ 18446744073709551615

/-- Bytes (big-endian groups of 4) to 32-bit words. -/
def bytesToWords32 : List Nat → List Nat
  | b1 :: b2 :: b3 :: b4 :: rest =>
    (((b1 * 256 + b2) * 256 + b3) * 256 + b4) :: bytesToWords32 rest
  | _ => []

/-- Bytes (big-endian groups of 8) to 64-bit words. -/
def bytesToWords64 : List Nat → List Nat
  | b1 :: b2 :: b3 :: b4 :: b5 :: b6 :: b7 :: b8 :: rest =>
    (((((((b1 * 256 + b2) * 256 + b3) * 256 + b4) * 256 + b5) * 256 + b6) * 256
        + b7) * 256 + b8) :: bytesToWords64 rest
  | _ => []

/-- Eight hash-state words, for both SHA-256 and SHA-512. -/
structure Words8 where
  a : Nat
  b : Nat
  c : Nat
  d : Nat
  e : Nat
  f : Nat
  g : Nat
  h : Nat
deriving DecidableEq, Repr

/-- The SHA-256 round constants (FIPS 180-4). -/
def sha256K : List Nat :=
  [
    1116352408, 1899447441, 3049323471, 3921009573, 961987163, 1508970993,
    2453635748, 2870763221, 3624381080, 310598401, 607225278, 1426881987,
    1925078388, 2162078206, 2614888103, 3248222580, 3835390401, 4022224774,
    264347078, 604807628, 770255983, 1249150122, 1555081692, 1996064986,
    2554220882, 2821834349, 2952996808, 3210313671, 3336571891, 3584528711,
    113926993, 338241895, 666307205, 773529912, 1294757372, 1396182291,
    1695183700, 1986661051, 2177026350, 2456956037, 2730485921, 2820302411,
    3259730800, 3345764771, 3516065817, 3600352804, 4094571909, 275423344,
    430227734, 506948616, 659060556, 883997877, 958139571, 1322822218,
    1537002063, 1747873779, 1955562222, 2024104815, 2227730452, 2361852424,
    2428436474, 2756734187, 3204031479, 3329325298]

/-- The SHA-256 initial hash state (FIPS 180-4). -/
def sha256H0 : Words8 :=
  ⟨1779033703, 3144134277, 1013904242, 2773480762, 1359893119, 2600822924, 528734635, 1541459225⟩

/-- SHA-256 message-schedule step: the next word from the reversed schedule
accumulated so far (newest word first). -/
def sha256SchedStep (rev : List Nat) : Nat :=
  let g := fun (k : Nat) => rev.getD k 0
  let s0 := fun (x : Nat) => rotr32 7 x ^^^ rotr32 18 x ^^^ (x >>> 3)
  let s1 := fun (x : Nat) => rotr32 17 x ^^^ rotr32 19 x ^^^ (x >>> 10)
  m32 (s1 (g 1) + g 6 + s0 (g 14) + g 15)

/-- Extend 16 block words to the full 64-word SHA-256 schedule. -/
def sha256Schedule (w16 : List Nat) : List Nat :=
  let rec go : Nat → List Nat → List Nat
    | 0, rev => rev.reverse
    | k + 1, rev => go k (sha256SchedStep rev :: rev)
  go 48 w16.reverse

/-- One SHA-256 compression round. -/
def sha256Round (st : Words8) (kw : Nat × Nat) : Words8 :=
  let ch := (st.e &&& st.f) ^^^ (not32 st.e &&& st.g)
  let maj := (st.a &&& st.b) ^^^ (st.a &&& st.c) ^^^ (st.b &&& st.c)
  let bs0 := rotr32 2 st.a ^^^ rotr32 13 st.a ^^^ rotr32 22 st.a
  let bs1 := rotr32 6 st.e ^^^ rotr32 11 st.e ^^^ rotr32 25 st.e
  let t1 := m32 (st.h + bs1 + ch + kw.1 + kw.2)
  let t2 := m32 (bs0 + maj)
  ⟨m32 (t1 + t2), st.a, st.b, st.c, m32 (st.d + t1), st.e, st.f, st.g⟩

/-- SHA-256 compression of one 64-byte block into the running state. -/
def sha256Compress (H : Words8) (block : List Nat) : Words8 :=
  let w := sha256Schedule (bytesToWords32 block)
  let st := (sha256K.zip w).foldl sha256Round H
  ⟨m32 (H.a + st.a), m32 (H.b + st.b), m32 (H.c + st.c), m32 (H.d + st.d),
   m32 (H.e + st.e), m32 (H.f + st.f), m32 (H.g + st.g), m32 (H.h + st.h)⟩

/-- SHA-256 padding: `0x80`, zeros to 56 mod 64, then the 64-bit big-endian
bit length. -/
def sha256Pad (msg : List Nat) : List Nat :=
  let len := msg.length
  msg ++ 0x80 :: List.replicate ((119 - len % 64) % 64) 0 ++ beBytesFix 8 (len * 8)

/-- Model of the `sha2` crate's SHA-256 (FIPS 180-4) on a byte list. -/
def sha256 (msg : List Nat) : List Nat :=
  let H := ((chunks 64 (sha256Pad msg)).foldl sha256Compress sha256H0)
  beBytesFix 4 H.a ++ beBytesFix 4 H.b ++ beBytesFix 4 H.c ++ beBytesFix 4 H.d ++
  beBytesFix 4 H.e ++ beBytesFix 4 H.f ++ beBytesFix 4 H.g ++ beBytesFix 4 H.h

/-- The repository's `sha256_hash_twice` helper: SHA-256 applied twice. -/
def sha256Twice (msg : List Nat) : List Nat :=
  sha256 (sha256 msg)

/-- The SHA-512 round constants (FIPS 180-4). -/
def sha512K : List Nat :=
  [
    4794697086780616226, 8158064640168781261, 13096744586834688815,
    16840607885511220156, 4131703408338449720, 6480981068601479193,
    10538285296894168987, 12329834152419229976, 15566598209576043074,
    1334009975649890238, 2608012711638119052, 6128411473006802146,
    8268148722764581231, 9286055187155687089, 11230858885718282805,
    13951009754708518548, 16472876342353939154, 17275323862435702243,
    1135362057144423861, 2597628984639134821, 3308224258029322869,
    5365058923640841347, 6679025012923562964, 8573033837759648693,
    10970295158949994411, 12119686244451234320, 12683024718118986047,
    13788192230050041572, 14330467153632333762, 15395433587784984357,
    489312712824947311, 1452737877330783856, 2861767655752347644,
    3322285676063803686, 5560940570517711597, 5996557281743188959,
    7280758554555802590, 8532644243296465576, 9350256976987008742,
    10552545826968843579, 11727347734174303076, 12113106623233404929,
    14000437183269869457, 14369950271660146224, 15101387698204529176,
    15463397548674623760, 17586052441742319658, 1182934255886127544,
    1847814050463011016, 2177327727835720531, 2830643537854262169,
    3796741975233480872, 4115178125766777443, 5681478168544905931,
    6601373596472566643, 7507060721942968483, 8399075790359081724,
    8693463985226723168, 9568029438360202098, 10144078919501101548,
    10430055236837252648, 11840083180663258601, 13761210420658862357,
    14299343276471374635, 14566680578165727644, 15097957966210449927,
    16922976911328602910, 17689382322260857208, 500013540394364858,
    748580250866718886, 1242879168328830382, 1977374033974150939,
    2944078676154940804, 3659926193048069267, 4368137639120453308,
    4836135668995329356, 5532061633213252278, 6448918945643986474,
    6902733635092675308, 7801388544844847127]

/-- The SHA-512 initial hash state (FIPS 180-4). -/
def sha512H0 : Words8 :=
  ⟨7640891576956012808,
   13503953896175478587,
   4354685564936845355,
   11912009170470909681,
   5840696475078001361,
   11170449401992604703,
   2270897969802886507,
   6620516959819538809⟩

/-- SHA-512 message-schedule step. -/
def sha512SchedStep (rev : List Nat) : Nat :=
  let g := fun (k : Nat) => rev.getD k 0
  let s0 := fun (x : Nat) => rotr64 1 x ^^^ rotr64 8 x ^^^ (x >>> 7)
  let s1 := fun (x : Nat) => rotr64 19 x ^^^ rotr64 61 x ^^^ (x >>> 6)
  m64 (s1 (g 1) + g 6 + s0 (g 14) + g 15)

/-- Extend 16 block words to the full 80-word SHA-512 schedule. -/
def sha512Schedule (w16 : List Nat) : List Nat :=
  let rec go : Nat → List Nat → List Nat
    | 0, rev => rev.reverse
    | k + 1, rev => go k (sha512SchedStep rev :: rev)
  go 64 w16.reverse

/-- One SHA-512 compression round. -/
def sha512Round (st : Words8) (kw : Nat × Nat) : Words8 :=
  let ch := (st.e &&& st.f) ^^^ (not64 st.e &&& st.g)
  let maj := (st.a &&& st.b) ^^^ (st.a &&& st.c) ^^^ (st.b &&& st.c)
  let bs0 := rotr64 28 st.a ^^^ rotr64 34 st.a ^^^ rotr64 39 st.a
  let bs1 := rotr64 14 st.e ^^^ rotr64 18 st.e ^^^ rotr64 41 st.e
  let t1 := m64 (st.h + bs1 + ch + kw.1 + kw.2)
  let t2 := m64 (bs0 + maj)
  ⟨m64 (t1 + t2), st.a, st.b, st.c, m64 (st.d + t1), st.e, st.f, st.g⟩

/-- SHA-512 compression of one 128-byte block into the running state. -/
def sha512Compress (H : Words8) (block : List Nat) : Words8 :=
  let w := sha512Schedule (bytesToWords64 block)
  let st := (sha512K.zip w).foldl sha512Round H
  ⟨m64 (H.a + st.a), m64 (H.b + st.b), m64 (H.c + st.c), m64 (H.d + st.d),
   m64 (H.e + st.e), m64 (H.f + st.f), m64 (H.g + st.g), m64 (H.h + st.h)⟩

/-- SHA-512 padding: `0x80`, zeros to 112 mod 128, then the 128-bit big-endian
bit length. -/
def sha512Pad (msg : List Nat) : List Nat :=
  let len := msg.length
  msg ++ 0x80 :: List.replicate ((239 - len % 128) % 128) 0 ++ beBytesFix 16 (len * 8)

/-- Model of the `sha2` crate's SHA-512 (FIPS 180-4) on a byte list. -/
def sha512 (msg : List Nat) : List Nat :=
  let H := ((chunks 128 (sha512Pad msg)).foldl sha512Compress sha512H0)
  beBytesFix 8 H.a ++ beBytesFix 8 H.b ++ beBytesFix 8 H.c ++ beBytesFix 8 H.d ++
  beBytesFix 8 H.e ++ beBytesFix 8 H.f ++ beBytesFix 8 H.g ++ beBytesFix 8 H.h

/-- Model of the `hmac-sha512` crate's `HMAC::mac(input, key)`: standard
HMAC (RFC 2104) over SHA-512 with a 128-byte block size. -/
def hmacSha512 (input key : List Nat) : List Nat :=
  let k0 := if key.length > 128 then sha512 key else key
  let kPad := k0 ++ List.replicate (128 - k0.length) 0
  let ipad := kPad.map (fun b => b ^^^ 0x36)
  let opad := kPad.map (fun b => b ^^^ 0x5c)
  sha512 (opad ++ sha512 (ipad ++ input))

/-- 32-bit rotate left. -/
def rotl32 (n x : Nat) : Nat := m32 ((x <<< n) ||| (x >>> (32 - n)))

/-- Bytes (little-endian groups of 4) to 32-bit words. -/
def bytesToWords32LE : List Nat → List Nat
  | b1 :: b2 :: b3 :: b4 :: rest =>
    (((b4 * 256 + b3) * 256 + b2) * 256 + b1) :: bytesToWords32LE rest
  | _ => []

/-- RIPEMD-160 selection function for step index `j`. -/
def rmdF (j x y z : Nat) : Nat :=
  if j < 16 then x ^^^ y ^^^ z
  else if j < 32 then (x &&& y) ||| (not32 x &&& z)
  else if j < 48 then (x ||| not32 y) ^^^ z
  else if j < 64 then (x &&& z) ||| (y &&& not32 z)
  else x ^^^ (y ||| not32 z)

/-- RIPEMD-160 left-line round constants (one per 16 steps). -/
def rmdKL : List Nat := [0, 0x5a827999, 0x6ed9eba1, 0x8f1bbcdc, 0xa953fd4e]

/-- RIPEMD-160 right-line round constants (one per 16 steps). -/
def rmdKR : List Nat := [0x50a28be6, 0x5c4dd124, 0x6d703ef3, 0x7a6d76e9, 0]

/-- RIPEMD-160 left-line message word order. -/
def rmdRL : List Nat :=
  [0, 1, 2, 3, 4, 5, 6, 7, 8, 9, 10, 11, 12, 13, 14, 15,
   7, 4, 13, 1, 10, 6, 15, 3, 12, 0, 9, 5, 2, 14, 11, 8,
   3, 10, 14, 4, 9, 15, 8, 1, 2, 7, 0, 6, 13, 11, 5, 12,
   1, 9, 11, 10, 0, 8, 12, 4, 13, 3, 7, 15, 14, 5, 6, 2,
   4, 0, 5, 9, 7, 12, 2, 10, 14, 1, 3, 8, 11, 6, 15, 13]

/-- RIPEMD-160 right-line message word order. -/
def rmdRR : List Nat :=
  [5, 14, 7, 0, 9, 2, 11, 4, 13, 6, 15, 8, 1, 10, 3, 12,
   6, 11, 3, 7, 0, 13, 5, 10, 14, 15, 8, 12, 4, 9, 1, 2,
   15, 5, 1, 3, 7, 14, 6, 9, 11, 8, 12, 2, 10, 0, 4, 13,
   8, 6, 4, 1, 3, 11, 15, 0, 5, 12, 2, 13, 9, 7, 10, 14,
   12, 15, 10, 4, 1, 5, 8, 7, 6, 2, 13, 14, 0, 3, 9, 11]

/-- RIPEMD-160 left-line rotation amounts. -/
def rmdSL : List Nat :=
  [11, 14, 15, 12, 5, 8, 7, 9, 11, 13, 14, 15, 6, 7, 9, 8,
   7, 6, 8, 13, 11, 9, 7, 15, 7, 12, 15, 9, 11, 7, 13, 12,
   11, 13, 6, 7, 14, 9, 13, 15, 14, 8, 13, 6, 5, 12, 7, 5,
   11, 12, 14, 15, 14, 15, 9, 8, 9, 14, 5, 6, 8, 6, 5, 12,
   9, 15, 5, 11, 6, 8, 13, 12, 5, 12, 13, 14, 11, 8, 5, 6]

/-- RIPEMD-160 right-line rotation amounts. -/
def rmdSR : List Nat :=
  [8, 9, 9, 11, 13, 15, 15, 5, 7, 7, 8, 11, 14, 14, 12, 6,
   9, 13, 15, 7, 12, 8, 9, 11, 7, 7, 12, 7, 6, 15, 13, 11,
   9, 7, 15, 11, 8, 6, 6, 14, 12, 13, 5, 14, 13, 13, 7, 5,
   15, 5, 8, 11, 14, 14, 6, 14, 6, 9, 12, 9, 12, 5, 15, 8,
   8, 5, 12, 9, 12, 5, 14, 6, 8, 13, 6, 5, 15, 13, 11, 11]

/-- Five RIPEMD-160 line-state words. -/
structure Words5 where
  a : Nat
  b : Nat
  c : Nat
  d : Nat
  e : Nat
deriving DecidableEq, Repr

/-- One RIPEMD-160 line step (`fIdx` gives the selection-function index,
which runs backwards on the right line). -/
def rmdStep (X Kt rt st_ : List Nat) (fIdx : Nat → Nat) (st : Words5) (j : Nat) :
    Words5 :=
  let t := m32 (st.a + rmdF (fIdx j) st.b st.c st.d + X.getD (rt.getD j 0) 0 +
    Kt.getD (j / 16) 0)
  let t := m32 (rotl32 (st_.getD j 0) t + st.e)
  ⟨st.e, t, st.b, rotl32 10 st.c, st.d⟩

/-- RIPEMD-160 compression of one 64-byte block. -/
def rmdCompress (H : Words5) (block : List Nat) : Words5 :=
  let X := bytesToWords32LE block
  let L := (List.range 80).foldl (rmdStep X rmdKL rmdRL rmdSL (fun j => j)) H
  let R := (List.range 80).foldl (rmdStep X rmdKR rmdRR rmdSR (fun j => 79 - j)) H
  ⟨m32 (H.b + L.c + R.d), m32 (H.c + L.d + R.e), m32 (H.d + L.e + R.a),
   m32 (H.e + L.a + R.b), m32 (H.a + L.b + R.c)⟩

/-- RIPEMD-160 padding: `0x80`, zeros to 56 mod 64, then the 64-bit
little-endian bit length. -/
def rmdPad (msg : List Nat) : List Nat :=
  let len := msg.length
  msg ++ 0x80 :: List.replicate ((119 - len % 64) % 64) 0 ++ leBytesFix 8 (len * 8)

/-- Model of the `ripemd160` crate's RIPEMD-160 hash on a byte list. -/
def ripemd160 (msg : List Nat) : List Nat :=
  let H := (chunks 64 (rmdPad msg)).foldl rmdCompress
    ⟨0x67452301, 0xefcdab89, 0x98badcfe, 0x10325476, 0xc3d2e1f0⟩
  leBytesFix 4 H.a ++ leBytesFix 4 H.b ++ leBytesFix 4 H.c ++
  leBytesFix 4 H.d ++ leBytesFix 4 H.e

/-- The secp256k1 base-field prime `p = 2^256 - 2^32 - 977`. -/
def secpP : Nat :=
  0xfffffffffffffffffffffffffffffffffffffffffffffffffffffffefffffc2f

/-- The secp256k1 group order `n`. -/
def secpN : Nat :=
  0xfffffffffffffffffffffffffffffffebaaedce6af48a03bbfd25e8cd0364141

/-- The secp256k1 crate's `constants::CURVE_ORDER`: the big-endian bytes
of the group order. -/
def curveOrderBytes : List Nat := beBytesFix 32 secpN

/-- x-coordinate of the secp256k1 generator. -/
def secpGx : Nat :=
  0x79be667ef9dcbbac55a06295ce870b07029bfcdb2dce28d959f2815b16f81798

/-- y-coordinate of the secp256k1 generator. -/
def secpGy : Nat :=
  0x483ada7726a3c4655da4fbfc0e1108a8fd17b448a68554199c47d08ffb10d4b8

/-- Modular exponentiation by binary splitting of the exponent, with fuel
(any `fuel` above the exponent's bit length is enough). -/
def powModFuel : Nat → Nat → Nat → Nat → Nat
  | 0, _, _, p => 1 % p
  | fuel + 1, b, e, p =>
    if e = 0 then 1 % p
    else
      let h := powModFuel fuel ((b * b) % p) (e / 2) p
      if e % 2 = 1 then (b * h) % p else h

/-- Modular exponentiation (exponents up to 320 bits). -/
def powMod (b e p : Nat) : Nat := powModFuel 320 b e p

/-- Inverse in the secp256k1 base field, by Fermat. -/
def fInv (x : Nat) : Nat := powMod x (secpP - 2) secpP

/-- Square root in the secp256k1 base field (valid when the root exists,
using `p ≡ 3 mod 4`). -/
def fSqrt (c : Nat) : Nat := powMod c ((secpP + 1) / 4) secpP

/-- An affine secp256k1 point; `none` is the point at infinity. -/
def ECPoint : Type := Option (Nat × Nat)

instance : DecidableEq ECPoint := by
  unfold ECPoint
  infer_instance

/-- Addition of affine secp256k1 points (the curve group law, as implemented
by the external `secp256k1`/`k256` crates). -/
def ecAdd (p q : ECPoint) : ECPoint :=
  match p, q with
  | none, q => q
  | p, none => p
  | some (x1, y1), some (x2, y2) =>
    if x1 = x2 then
      if (y1 + y2) % secpP = 0 then none
      else
        let l := ((3 * x1 * x1) % secpP * fInv ((2 * y1) % secpP)) % secpP
        let x3 := ((l * l + 2 * secpP) - (x1 + x2)) % secpP
        some (x3, ((l * (((x1 + secpP) - x3) % secpP)) % secpP + secpP - y1) % secpP)
    else
      let l := ((((y2 + secpP) - y1) % secpP) *
        fInv (((x2 + secpP) - x1) % secpP)) % secpP
      let x3 := ((l * l + 2 * secpP) - (x1 + x2)) % secpP
      some (x3, ((l * (((x1 + secpP) - x3) % secpP)) % secpP + secpP - y1) % secpP)

/-- Scalar multiplication by binary splitting, with fuel. -/
def ecMulFuel : Nat → Nat → ECPoint → ECPoint
  | 0, _, _ => none
  | fuel + 1, k, pt =>
    if k = 0 then none
    else
      let h := ecMulFuel fuel (k / 2) (ecAdd pt pt)
      if k % 2 = 1 then ecAdd pt h else h

/-- Scalar multiplication (scalars up to 300 bits). -/
def ecMul (k : Nat) (pt : ECPoint) : ECPoint := ecMulFuel 300 k pt

/-- The secp256k1 generator point. -/
def ecG : ECPoint := some (secpGx, secpGy)

/-- SEC1 compressed serialization of a finite point. -/
def serializeCompressed (pt : Nat × Nat) : List Nat :=
  (if pt.2 % 2 = 0 then 0x02 else 0x03) :: beBytesFix 32 pt.1

/-- SEC1 uncompressed serialization of a finite point. -/
def serializeUncompressed (pt : Nat × Nat) : List Nat :=
  0x04 :: beBytesFix 32 pt.1 ++ beBytesFix 32 pt.2

/-- SEC1 point parsing with decompression and curve check, the model of
`k256`'s `EncodedPoint::from_bytes` followed by
`ProjectivePoint::from_encoded_point`. -/
def parsePoint (bs : List Nat) : Option (Nat × Nat) :=
  if bs.length = 33 ∧ (bs.headD 0 = 2 ∨ bs.headD 0 = 3) then
    let x := beValue (bs.drop 1)
    let y2 := (x * x % secpP * x + 7) % secpP
    let y := fSqrt y2
    if x < secpP ∧ (y * y) % secpP = y2 then
      some (x, if y % 2 = bs.headD 0 % 2 then y else secpP - y)
    else none
  else if bs.length = 65 ∧ bs.headD 0 = 4 then
    let x := beValue ((bs.drop 1).take 32)
    let y := beValue (bs.drop 33)
    if x < secpP ∧ y < secpP ∧ (y * y) % secpP = (x * x % secpP * x + 7) % secpP then
      some (x, y)
    else none
  else none

/-- Validity of a 32-byte secret-key byte string, the model of the
`secp256k1` crate's `SecretKey::from_slice`: exactly 32 bytes whose
big-endian value lies in `(0, n)`. -/
def validSecretKeyBytes (bs : List Nat) : Prop :=
  bs.length = 32 ∧ 0 < beValue bs ∧ beValue bs < secpN

instance (bs : List Nat) : Decidable (validSecretKeyBytes bs) := by
  unfold validSecretKeyBytes
  infer_instance

/-- Model of `num_bigint::BigInt::from_signed_bytes_le`: two's-complement
interpretation of a little-endian byte list (empty list is zero). -/
def fromSignedBytesLE (bs : List Nat) : Int :=
  if bs.getLast?.getD 0 ≥ 0x80 then
    (leValue bs : Int) - 2 ^ (8 * bs.length)
  else
    (leValue bs : Int)

/-- Fuel search for the minimal two's-complement byte width of an integer. -/
def tcLenFuel : Nat → Nat → Int → Nat
  | 0, k, _ => k
  | fuel + 1, k, x =>
    if -(2 ^ (8 * k - 1) : Int) ≤ x ∧ x < 2 ^ (8 * k - 1) then k
    else tcLenFuel fuel (k + 1) x

/-- Model of `num_bigint::BigInt::to_signed_bytes_le`: the minimal-width
two's-complement little-endian byte encoding (zero encodes as `[0]`). -/
def toSignedBytesLE (x : Int) : List Nat :=
  let k := tcLenFuel 2000 1 x
  leBytesFix k (x % ((2 : Int) ^ (8 * k))).toNat

/-- The `bip0039` crate's accepted entropy byte widths (128–256 bits in
32-bit steps), deciding whether `Mnemonic::from_entropy` succeeds. -/
def validEntropyLen (n : Nat) : Prop :=
  n = 16 ∨ n = 20 ∨ n = 24 ∨ n = 28 ∨ n = 32

instance (n : Nat) : Decidable (validEntropyLen n) := by
  unfold validEntropyLen
  infer_instance

/-- Unsigned 32-bit bit pattern of an `i32`, as formatted by `{:08x}`. -/
def u32Pattern (i : Int) : Nat := (i % ((2 : Int) ^ 32)).toNat

/-- Unsigned 64-bit bit pattern of an `i64`, as formatted by `{:016x}`. -/
def u64Pattern (i : Int) : Nat := (i % ((2 : Int) ^ 64)).toNat

/-- The `Network` enum of `src/types.rs`. -/
inductive Network
  | mainnet
  | testnet
deriving DecidableEq, Repr

/-- The `ChildKeyType` enum of `src/types.rs`. -/
inductive ChildKeyType
  | normal
  | hardened
deriving DecidableEq, Repr

/-- The `KeyType` enum of `src/types.rs`. -/
inductive KeyType
  | master
  | normal
  | hardened
deriving DecidableEq, Repr

/-- The `KeyError` enum of `src/types.rs`.  Error message strings produced
by external crates are not reproduced bit-for-bit; each carrier is kept. -/
inductive KeyError
  | decode
  | invalidFormat
  | checksumMismatch
  | invalidNetworkByte
  | indexOutOfRange
  | tooLong (msg : String)
  | badMnemonicPhrase (msg : String)
  | other (msg : String)
deriving DecidableEq, Repr

instance {ε α : Type} [DecidableEq ε] [DecidableEq α] :
    DecidableEq (Except ε α) := fun
  | .ok a, .ok b => decidable_of_iff (a = b) (by simp)
  | .error e1, .error e2 => decidable_of_iff (e1 = e2) (by simp)
  | .ok _, .error _ => isFalse (by simp)
  | .error _, .ok _ => isFalse (by simp)

/-- The `Key` struct of `src/key.rs`. -/
structure Key where
  bytes : List Nat
  network : Network
  compressPublicKeys : Bool
  chainCode : List Nat
deriving DecidableEq, Repr

/-- Serialization chosen by the `secp256k1` crate's `PublicKey`; that crate
cannot represent the point at infinity (a valid secret key never produces
it), so the infinity case is given an arbitrary placeholder encoding. -/
def serializePoint (compress : Bool) : ECPoint → List Nat
  | none => [0]
  | some pt => if compress then serializeCompressed pt else serializeUncompressed pt

/-- `Key::new_public_key` of `src/key.rs`: validate the secret bytes, map the
scalar to its curve point, and serialize per the compression flag. -/
def Key.newPublicKey (k : Key) : Except KeyError (List Nat) :=
  if validSecretKeyBytes k.bytes then
    .ok (serializePoint k.compressPublicKeys (ecMul (beValue k.bytes) ecG))
  else
    .error (.other "malformed secret key")

/-- `Key::address` of `src/key.rs`.  Note that the whole 32-byte double-SHA256
hash is appended after the version byte and RIPEMD160 digest, exactly as in
the source (`encrypted_pubkey.append(&mut checksum)`). -/
def Key.address (k : Key) : Except KeyError String :=
  match k.newPublicKey with
  | .error e => .error e
  | .ok pubkey =>
    let fHash := sha256 pubkey
    let hash160 := ripemd160 fHash
    let versioned :=
      (match k.network with
       | .mainnet => 0x00
       | .testnet => 0x6f) :: hash160
    let checksum := sha256Twice versioned
    .ok (base58Encode (versioned ++ checksum))

/-- `Key::to_wif` of `src/key.rs`: version byte, key bytes, optional `0x01`
compression marker, then the first four double-SHA256 checksum bytes, all
base58-encoded. -/
def Key.toWif (k : Key) : String :=
  let key :=
    ((match k.network with
      | .mainnet => 0x80
      | .testnet => 0xef) :: k.bytes) ++
    (if k.compressPublicKeys then [0x01] else [])
  let hash := sha256Twice key
  base58Encode (key ++ hash.take 4)

/-- The part of `Key::from_wif` of `src/key.rs` that runs after the checksum
test, parameterised by `toSeed`, the external `bip0039` seed derivation
(`Mnemonic::from_entropy(..).to_seed("")`), of which only the resulting
chain code is retained.  The outer `Option` is `none` exactly when the
source would panic (`decoded.remove(0)` on an empty vector, reachable for a
crafted four-byte payload). -/
def fromWifBody (toSeed : List Nat → List Nat) (decoded : List Nat) :
    Option (Except KeyError Key) :=
  match decoded with
  | [] => none
  | b0 :: rest =>
        let networkE : Except KeyError Network :=
          if b0 = 0x80 then .ok .mainnet
          else if b0 = 0xef then .ok .testnet
          else .error .invalidNetworkByte
        match networkE with
        | .error e => some (.error e)
        | .ok network =>
          match rest.getLast? with
          | none => some (.error .invalidFormat)
          | some lastByte =>
            let compress : Bool := rest.length > 32 && lastByte == 0x01
            let bytes := if compress then rest.dropLast else rest
            if validEntropyLen bytes.length then
              let seed := toSeed bytes
              let chainCode := (sha512 seed).drop 32
              some (.ok ⟨bytes, network, compress, chainCode⟩)
            else
              some (.error .decode)

/-- `Key::from_wif` of `src/key.rs`: base58 decode, split off and verify the
four checksum bytes, then parse version byte, compression flag and key
bytes (`fromWifBody`). -/
def fromWif (toSeed : List Nat → List Nat) (input : String) :
    Option (Except KeyError Key) :=
  match base58Decode input with
  | none => some (.error .decode)
  | some full =>
    let checksum := full.drop (full.length - 4)
    let decoded := full.take (full.length - 4)
    if (sha256Twice decoded).take 4 ≠ checksum then
      some (.error .checksumMismatch)
    else
      fromWifBody toSeed decoded

/-- `Key::derive_child_private_key` of `src/key.rs`.  In the hardened branch
the source constructs `bytes = self.bytes() ++ index.to_le_bytes()` but then
passes `self.bytes()` (without the index) to the HMAC; the model reproduces
the call as made.  The scalar arithmetic reproduces the source's
`BigInt::from_signed_bytes_le` readings (including of the big-endian
`CURVE_ORDER` constant), Rust's truncated `%`, and
`BigInt::to_signed_bytes_le`. -/
def Key.deriveChildPrivateKey (k : Key) (index : Nat) (keyType : ChildKeyType) :
    Except KeyError Key :=
  if keyType = .normal ∧ index > 2147483647 then
    .error .indexOutOfRange
  else if keyType = .hardened ∧ (index < 2147483647 ∨ index > 4294967295) then
    .error .indexOutOfRange
  else
    let hashE : Except KeyError (List Nat) :=
      match keyType with
      | .normal =>
        match k.newPublicKey with
        | .error e => .error e
        | .ok pubkey => .ok (hmacSha512 (pubkey ++ leBytesFix 8 index) k.chainCode)
      | .hardened => .ok (hmacSha512 k.bytes k.chainCode)
    match hashE with
    | .error e => .error e
    | .ok hash =>
      let chainCode := hash.drop 32
      let hashHalf := hash.take 32
      let curveOrder := fromSignedBytesLE curveOrderBytes
      let hashInt := fromSignedBytesLE hashHalf
      let prevKey := fromSignedBytesLE k.bytes
      let key := Int.tmod (hashInt + prevKey) curveOrder
      .ok ⟨toSignedBytesLE key, k.network, k.compressPublicKeys, chainCode⟩

/-- `Key::derive_child_public_key` of `src/key.rs`.  The index is a `u32`,
so `to_le_bytes` contributes four bytes here (against eight in the private
derivation).  The outer `Option` is `none` when one of the source's
`.unwrap()` calls would panic. -/
def Key.deriveChildPublicKey (k : Key) (index : Nat) :
    Option (Except KeyError (List Nat)) :=
  if index > 2147483647 then
    some (.error .indexOutOfRange)
  else
    match k.newPublicKey with
    | .error e => some (.error e)
    | .ok originalPubkey =>
      let pubkey := originalPubkey ++ leBytesFix 4 index
      let hash := hmacSha512 pubkey k.chainCode
      let chainCode := hash.drop 32
      let hashHalf := hash.take 32
      if validSecretKeyBytes hashHalf then
        let pointHmacBytes := serializePoint true (ecMul (beValue hashHalf) ecG)
        match parsePoint pointHmacBytes, parsePoint originalPubkey with
        | some pointHmac, some pointPublic =>
          match ecAdd (some pointHmac) (some pointPublic) with
          | some sum => some (.ok (serializeCompressed sum ++ chainCode))
          | none => some (.ok ([0] ++ chainCode))
        | _, _ => none
      else
        none

/-- The `TransactionVersion` enum of `src/transaction.rs`. -/
inductive TransactionVersion
  | one
deriving DecidableEq, Repr

/-- `TransactionVersion::as_ver_string`. -/
def TransactionVersion.asVerString : TransactionVersion → String
  | .one => "01000000"

/-- The `TransactionType` enum of `src/transaction.rs`. -/
inductive TransactionType
  | pay2PubKeyHash
deriving DecidableEq, Repr

/-- The `OutPoint` struct of `src/transaction.rs` (`index` is an `i32`). -/
structure OutPoint where
  hash : String
  index : Int
deriving DecidableEq, Repr

/-- The `TransactionInput` struct of `src/transaction.rs`. -/
structure TransactionInput where
  previousOutput : OutPoint
  signatureScript : List Nat
  utxoPkScript : List Nat
deriving DecidableEq, Repr

/-- The `TransactionOutput` struct of `src/transaction.rs` (`value` is an
`i64`). -/
structure TransactionOutput where
  value : Int
  pkScript : List Nat
deriving DecidableEq, Repr

/-- The `Transaction` struct of `src/transaction.rs` (`lock_time` is a
`u128`). -/
structure Transaction where
  txType : TransactionType
  version : TransactionVersion
  txIn : List TransactionInput
  txOut : List TransactionOutput
  lockTime : Nat
deriving DecidableEq, Repr

/-- The repository's `reverse_byte_order` helper of `src/utils.rs`: hex
decode, reverse the bytes, hex encode.  The source unwraps the decode, so
`none` models the panic on odd-length or non-hex input — reachable from
`pre_sign`/`sign` through `format!("{:02x}", num_outputs)`, whose rendering
has odd length for output counts such as 256–4095. -/
def reverseByteOrder (s : String) : Option String :=
  (hexDecode s).map fun bs => hexEncode bs.reverse

/-- The serialized form of one transaction input with script field `script`
(a byte list) and length field `lenField`, shared by `pre_sign` and `sign`
in `src/transaction.rs`.  `none` propagates the `reverse_byte_order` panic
(never reached here: `{:08x}` of a `u32` bit pattern is always eight hex
digits; proved below). -/
def inputChunk (input : TransactionInput) (lenField : Nat) (scriptHex : String) :
    Option String :=
  (reverseByteOrder (fmtHex8 (u32Pattern input.previousOutput.index))).map
    fun vout =>
      input.previousOutput.hash ++ vout ++ fmtHex2 lenField ++ scriptHex

/-- The serialized form of one transaction output, shared by `pre_sign` and
`sign` in `src/transaction.rs`. -/
def outputChunk (out : TransactionOutput) : String :=
  fmtHex16 (u64Pattern out.value)
    ++ fmtHex2 out.pkScript.length
    ++ hexEncode out.pkScript

/-- `Transaction::pre_sign` of `src/transaction.rs`: each input's script
field carries the redeemed output's locking script.  `none` models the
`reverse_byte_order` panic (in practice only from the output-count field). -/
def Transaction.preSign (tx : Transaction) : Option String := do
  let inputs ← mapOptionList (fun input =>
    inputChunk input input.utxoPkScript.length (hexEncode input.utxoPkScript))
    tx.txIn
  let outCount ← reverseByteOrder (fmtHex2 tx.txOut.length)
  pure (tx.version.asVerString
    ++ fmtHex2 tx.txIn.length
    ++ String.join inputs
    ++ "ffffffff"
    ++ outCount
    ++ String.join (tx.txOut.map outputChunk)
    ++ fmtHex8 tx.lockTime)

/-- The signature script assembled by `Transaction::sign`:
`format!("{:02x}{}{:02x}{}", signature.len(), hex(signature), pk.len(), hex(pk))`. -/
def sigScriptOf (signature pk : List Nat) : String :=
  fmtHex2 signature.length ++ hexEncode signature
    ++ fmtHex2 pk.length ++ hexEncode pk

/-- `Transaction::sign` of `src/transaction.rs`, parameterised by `signData`,
the external ECDSA signer (`Key::sign_data`, which returns the ASCII bytes
of the signature's hex display).  `none` models the source's panics: the
`reverse_byte_order` unwraps (via `pre_sign` and the re-serialization), and
`key.new_public_key().unwrap()` on an invalid secret key (the same invalid
keys on which `sign_data`'s own `SecretKey::from_slice(..).unwrap()` panics
first).  Note that the per-input script field is `hex::encode(sig_script)`
— the hex of the script *string's* ASCII bytes — and its length field is
`sig_script.len()`, the length of that string. -/
def Transaction.sign (signData : List Nat → List Nat) (tx : Transaction)
    (key : Key) : Option String := do
  let ps ← tx.preSign
  let presigned := ps ++ fmtHex8 1
  let hash := sha256Twice (asciiBytes presigned)
  let signature := signData hash ++ [0x01]
  match key.newPublicKey with
  | .error _ => none
  | .ok pk =>
    let sigScript := sigScriptOf signature pk
    let inputs ← mapOptionList (fun input =>
      inputChunk input sigScript.length (hexEncode (asciiBytes sigScript)))
      tx.txIn
    let outCount ← reverseByteOrder (fmtHex2 tx.txOut.length)
    pure (tx.version.asVerString
      ++ fmtHex2 tx.txIn.length
      ++ String.join inputs
      ++ "ffffffff"
      ++ outCount
      ++ String.join (tx.txOut.map outputChunk)
      ++ fmtHex8 tx.lockTime)

/-- The `KeyPair` struct of `src/types.rs`. -/
structure KeyPair where
  privateKey : Key
  publicKey : List Nat
  keyType : KeyType
  index : Option Nat
deriving DecidableEq, Repr

/-- Modelled from the spec: one node of the external `libarena` crate's
`Arena<KeyPair, String>` — node data, a label, and an optional parent id
(the spec's "mapping from a dense integer node id to
(KeyPair, label, parent id)"). -/
structure ArenaNode where
  data : KeyPair
  label : String
  parent : Option Nat
deriving DecidableEq, Repr

/-- Modelled from the spec: the external `libarena` crate's append-only
arena with an optional root id. -/
structure Arena where
  nodes : List ArenaNode
  rootId : Option Nat
deriving DecidableEq, Repr

/-- Modelled from the spec: `Arena::insert` appends a node and returns its
dense id. -/
def Arena.insert (a : Arena) (data : KeyPair) (label : String)
    (parent : Option Nat) : Arena × Nat :=
  ({ a with nodes := a.nodes ++ [⟨data, label, parent⟩] }, a.nodes.length)

/-- Modelled from the spec: `Arena::get_inner` looks a node's data up by id. -/
def Arena.getInner (a : Arena) (i : Nat) : Option KeyPair :=
  (a.nodes.get? i).map (fun n => n.data)

/-- The `Wallet` struct of `src/wallet.rs` (the `PathBuf` is modelled as a
string). -/
structure Wallet where
  network : Network
  path : String
  nextHardenedIndex : Nat
  nextNormalIndex : Nat
  compressPublicKeys : Bool
  arena : Arena
  encrypted : Bool
deriving DecidableEq, Repr

/-- `Wallet::get` of `src/wallet.rs`. -/
def Wallet.get (w : Wallet) (i : Nat) : Option KeyPair :=
  w.arena.getInner i

/-- Result of a call to a Rust function that may loop forever: either it
returns a value or it diverges. -/
inductive LookupOutcome
  | returns (r : Option Key)
  | diverges
deriving DecidableEq, Repr

/-- `Wallet::get_address` of `src/wallet.rs`.  When the root's address
computes and differs from the query, the source falls into `loop {}` —
an infinite loop with an empty body, which trivially never terminates —
modelled by the explicit `diverges` outcome. -/
def Wallet.getAddress (w : Wallet) (address : String) : LookupOutcome :=
  match w.arena.rootId with
  | none => .returns none
  | some id =>
    match w.get id with
    | none => .returns none
    | some node =>
      match node.privateKey.address with
      | .error _ => .returns none
      | .ok nodeAddress =>
        if address = nodeAddress then .returns (some node.privateKey)
        else .diverges

/-- Modelled from the spec: the JSON documents produced and consumed by the
external `serde_json` crate. -/
inductive Json
  | null
  | bool (b : Bool)
  | num (n : Nat)
  | str (s : String)
  | arr (items : List Json)
  | obj (fields : List (String × Json))

/-- Modelled from the spec: `serde_json` serializes a `PathBuf` as a JSON
string. -/
def serializePathBuf (p : String) : Json := .str p

/-- Modelled from the spec: serde serialization of `Network`. -/
def serializeNetwork : Network → Json
  | .mainnet => .str "Mainnet"
  | .testnet => .str "Testnet"

/-- Modelled from the spec: serde serialization of `KeyType`. -/
def serializeKeyType : KeyType → Json
  | .master => .str "Master"
  | .normal => .str "Normal"
  | .hardened => .str "Hardened"

/-- Modelled from the spec: serde serialization of a byte vector. -/
def serializeBytes (bs : List Nat) : Json := .arr (bs.map .num)

/-- Modelled from the spec: serde serialization of `Key`. -/
def serializeKey (k : Key) : Json :=
  .obj [("bytes", serializeBytes k.bytes),
        ("network", serializeNetwork k.network),
        ("compress_public_keys", .bool k.compressPublicKeys),
        ("chain_code", serializeBytes k.chainCode)]

/-- Modelled from the spec: serde serialization of `KeyPair`. -/
def serializeKeyPair (kp : KeyPair) : Json :=
  .obj [("private_key", serializeKey kp.privateKey),
        ("public_key", serializeBytes kp.publicKey),
        ("key_type", serializeKeyType kp.keyType),
        ("index", match kp.index with | none => .null | some i => .num i)]

/-- Modelled from the spec: serde serialization of an arena node. -/
def serializeArenaNode (n : ArenaNode) : Json :=
  .obj [("data", serializeKeyPair n.data),
        ("label", .str n.label),
        ("parent", match n.parent with | none => .null | some i => .num i)]

/-- Modelled from the spec: serde serialization of the arena. -/
def serializeArena (a : Arena) : Json :=
  .obj [("nodes", .arr (a.nodes.map serializeArenaNode)),
        ("root", match a.rootId with | none => .null | some i => .num i)]

/-- Modelled from the spec: serde serialization of the whole `Wallet` — "a
JSON document representing the wallet's configuration and full key arena". -/
def serializeWallet (w : Wallet) : Json :=
  .obj [("network", serializeNetwork w.network),
        ("path", serializePathBuf w.path),
        ("next_hardened_index", .num w.nextHardenedIndex),
        ("next_normal_index", .num w.nextNormalIndex),
        ("compress_public_keys", .bool w.compressPublicKeys),
        ("arena", serializeArena w.arena),
        ("encrypted", .bool w.encrypted)]

/-- Field lookup in a deserialized JSON object. -/
def jField (fields : List (String × Json)) (name : String) : Except String Json :=
  match fields.lookup name with
  | some j => .ok j
  | none => .error ("missing field " ++ name)

/-- Apply a fallible function to every element, failing on the first error. -/
def mapExceptList (f : α → Except ε β) : List α → Except ε (List β)
  | [] => .ok []
  | a :: t =>
    match f a, mapExceptList f t with
    | .ok b, .ok bs => .ok (b :: bs)
    | .error e, _ => .error e
    | .ok _, .error e => .error e

/-- Modelled from the spec: deserialization of a byte vector. -/
def deserializeBytes : Json → Except String (List Nat)
  | .arr items => mapExceptList (fun j => match j with
      | .num n => .ok n
      | _ => .error "expected a number") items
  | _ => .error "expected an array"

/-- Modelled from the spec: deserialization of `Network`. -/
def deserializeNetwork : Json → Except String Network
  | .str "Mainnet" => .ok .mainnet
  | .str "Testnet" => .ok .testnet
  | _ => .error "expected a network"

/-- Modelled from the spec: deserialization of `KeyType`. -/
def deserializeKeyType : Json → Except String KeyType
  | .str "Master" => .ok .master
  | .str "Normal" => .ok .normal
  | .str "Hardened" => .ok .hardened
  | _ => .error "expected a key type"

/-- Modelled from the spec: deserialization of a `bool` field. -/
def deserializeBool : Json → Except String Bool
  | .bool b => .ok b
  | _ => .error "expected a bool"

/-- Modelled from the spec: deserialization of a `Nat` field. -/
def deserializeNum : Json → Except String Nat
  | .num n => .ok n
  | _ => .error "expected a number"

/-- Modelled from the spec: deserialization of an optional `Nat` field. -/
def deserializeOptNum : Json → Except String (Option Nat)
  | .null => .ok none
  | .num n => .ok (some n)
  | _ => .error "expected a number or null"

/-- Modelled from the spec: deserialization of `Key`. -/
def deserializeKey : Json → Except String Key
  | .obj fields => do
    let bytes ← deserializeBytes (← jField fields "bytes")
    let network ← deserializeNetwork (← jField fields "network")
    let compress ← deserializeBool (← jField fields "compress_public_keys")
    let chainCode ← deserializeBytes (← jField fields "chain_code")
    pure ⟨bytes, network, compress, chainCode⟩
  | _ => .error "expected an object for Key"

/-- Modelled from the spec: deserialization of `KeyPair`. -/
def deserializeKeyPair : Json → Except String KeyPair
  | .obj fields => do
    let pk ← deserializeKey (← jField fields "private_key")
    let pub ← deserializeBytes (← jField fields "public_key")
    let kt ← deserializeKeyType (← jField fields "key_type")
    let idx ← deserializeOptNum (← jField fields "index")
    pure ⟨pk, pub, kt, idx⟩
  | _ => .error "expected an object for KeyPair"

/-- Modelled from the spec: deserialization of an arena node. -/
def deserializeArenaNode : Json → Except String ArenaNode
  | .obj fields => do
    let data ← deserializeKeyPair (← jField fields "data")
    let label ← (match ← jField fields "label" with
      | .str s => pure s
      | _ => .error "expected a string")
    let parent ← deserializeOptNum (← jField fields "parent")
    pure ⟨data, label, parent⟩
  | _ => .error "expected an object for Node"

/-- Modelled from the spec: deserialization of the arena. -/
def deserializeArena : Json → Except String Arena
  | .obj fields => do
    let nodesJson ← (match ← jField fields "nodes" with
      | .arr items => pure items
      | _ => .error "expected an array")
    let nodes ← mapExceptList deserializeArenaNode nodesJson
    let root ← deserializeOptNum (← jField fields "root")
    pure ⟨nodes, root⟩
  | _ => .error "expected an object for Arena"

/-- Modelled from the spec: deserialization of the whole `Wallet`, the
external work done inside `Wallet::from_wallet_file`; a JSON document that
is not an object with the wallet's fields is rejected. -/
def deserializeWallet : Json → Except String Wallet
  | .obj fields => do
    let network ← deserializeNetwork (← jField fields "network")
    let path ← (match ← jField fields "path" with
      | .str s => pure s
      | _ => .error "expected a string")
    let nhi ← deserializeNum (← jField fields "next_hardened_index")
    let nni ← deserializeNum (← jField fields "next_normal_index")
    let compress ← deserializeBool (← jField fields "compress_public_keys")
    let arena ← deserializeArena (← jField fields "arena")
    let encrypted ← deserializeBool (← jField fields "encrypted")
    pure ⟨network, path, nhi, nni, compress, arena, encrypted⟩
  | _ => .error "expected an object for Wallet"

/-- `Wallet::flush` of `src/wallet.rs`: the JSON document written to the
wallet's path.  The source serializes `&self.path` — not `&self` — so the
written document is the JSON string of the path.  `none` models the
`todo!()` panic of the `encrypted == true` arm. -/
def Wallet.flushContent (w : Wallet) : Option Json :=
  if w.encrypted then none
  else some (serializePathBuf w.path)

/-- `Wallet::from_wallet_file` of `src/wallet.rs` applied to a file holding
the JSON document `j`: deserialize a `Wallet` from it. -/
def fromWalletFileContent (j : Json) : Except String Wallet :=
  deserializeWallet j

/-- The byte string that `to_wif` base58-encodes ahead of its checksum:
version byte, key bytes, optional compression marker. -/
def wifPayload (k : Key) : List Nat :=
  ((match k.network with
    | .mainnet => 0x80
    | .testnet => 0xef) :: k.bytes) ++
  (if k.compressPublicKeys then [0x01] else [])

/-- The claim-side address encoding, following the specification's words:
version byte, `RIPEMD160(SHA256(pubkey))`, then only the FIRST FOUR bytes of
the double-SHA256 checksum (compare with `Key.address`, which appends the
whole 32-byte hash). -/
def claimAddress (k : Key) : Except KeyError String :=
  match k.newPublicKey with
  | .error e => .error e
  | .ok pubkey =>
    let versioned :=
      (match k.network with
       | .mainnet => 0x00
       | .testnet => 0x6f) :: ripemd160 (sha256 pubkey)
    .ok (base58Encode (versioned ++ (sha256Twice versioned).take 4))

/-- The claim-side child-scalar encoding: the 32-byte big-endian encoding of
`(IL + parent) mod n` over the true secp256k1 group order. -/
def claimChildScalarBytes (il parentBytes : List Nat) : List Nat :=
  beBytesFix 32 ((beValue il + beValue parentBytes) % secpN)

/-- A fixed stand-in for the external BIP39 seed derivation, used to
instantiate theorems that hold for every seed function. -/
def constSeed : List Nat → List Nat := fun _ => List.replicate 64 0

/-- The private key of scalar one (mainnet, compressed, all-zero chain
code); its public key is the generator point. -/
def keyOne : Key := ⟨beBytesFix 32 1, .mainnet, true, List.replicate 32 0⟩

/-- The private key of scalar `0xff` (mainnet, compressed, all-zero chain
code); reading its bytes as a signed little-endian number gives `-2^248`. -/
def keyFF : Key := ⟨List.replicate 31 0 ++ [0xff], .mainnet, true, List.replicate 32 0⟩

/-- A key whose 32 bytes are all `0x01` (mainnet, compressed). -/
def keyOnes : Key := ⟨List.replicate 32 1, .mainnet, true, List.replicate 32 0⟩

/-- A wallet whose arena holds one root node carrying `keyOne`. -/
def walletOne : Wallet :=
  ⟨.mainnet, "wallet.json", 2147483647, 1, true,
    ⟨[⟨⟨keyOne, serializeCompressed (secpGx, secpGy), .master, none⟩,
       "root", none⟩], some 0⟩, false⟩

/-- Parse a string of hex digits as a number (big-endian digit order). -/
def hexStrVal (s : String) : Option Nat :=
  (mapOptionList hexCharVal s.toList).map (beDigitsVal 16)

/-- The extended public key `derive_child_public_key(1)` returns for
`keyOne` (33-byte compressed point plus 32-byte chain code). -/
def c5Ext : List Nat :=
  [3, 247, 246, 25, 70, 66, 69, 48, 184, 24, 191, 32, 180, 154, 223, 54, 149,
   46, 237, 1, 103, 42, 93, 120, 59, 251, 1, 14, 135, 81, 214, 240, 244, 61,
   204, 0, 81, 67, 131, 203, 188, 85, 21, 250, 217, 47, 138, 0, 201, 200, 201,
   46, 128, 150, 224, 28, 179, 185, 200, 131, 251, 15, 202, 79, 106]

/-- The compressed public key of the child that
`derive_child_private_key(1, Normal)` returns for `keyOne`. -/
def c5PrivChildPub : List Nat :=
  [3, 141, 74, 214, 88, 31, 189, 112, 95, 76, 21, 97, 108, 1, 30, 92, 125, 84,
   134, 137, 119, 147, 233, 183, 250, 162, 102, 248, 121, 137, 25, 61, 170]

/-- The chain code of the child that `derive_child_private_key(1, Normal)`
returns for `keyOne`. -/
def c5PrivChildChain : List Nat :=
  [204, 228, 220, 13, 210, 206, 216, 255, 226, 66, 220, 99, 168, 74, 151, 84,
   93, 172, 164, 217, 61, 238, 92, 154, 105, 228, 196, 131, 148, 216, 172, 94]

/-- The child key bytes the code computes for `keyFF`, normal index `0`. -/
def c1CodeBytes : List Nat :=
  match Key.deriveChildPrivateKey keyFF 0 .normal with
  | .ok c => c.bytes
  | .error _ => []

/-- The child key bytes the claim demands for `keyFF`, normal index `0`:
the 32-byte big-endian encoding of `(IL + parent) mod n`, with `IL` the
first half of the very HMAC the code computes. -/
def c1SpecBytes : List Nat :=
  match Key.newPublicKey keyFF with
  | .ok pk =>
    claimChildScalarBytes
      ((hmacSha512 (pk ++ leBytesFix 8 0) keyFF.chainCode).take 32) keyFF.bytes
  | .error _ => []

/-- A two-input, one-output transaction with fixed literal fields. -/
def txTwoInputs : Transaction :=
  ⟨.pay2PubKeyHash, .one,
    [⟨⟨"aa", 0⟩, [], [0x76]⟩, ⟨⟨"bb", 1⟩, [], []⟩],
    [⟨5, [0x51]⟩], 7⟩

/-! ## Arithmetic facts about digit lists -/

theorem digitsFuel_zero (b fuel : Nat) : digitsFuel b fuel 0 = [] := by
  cases fuel <;> rfl

theorem digitsVal_digitsFuel (b : Nat) (hb : 2 ≤ b) :
    ∀ fuel n, n ≤ fuel → digitsVal b (digitsFuel b fuel n) = n := by
  intro fuel
  induction fuel with
  | zero => intro n hn; interval_cases n; rfl
  | succ f ih =>
    intro n hn
    match n with
    | 0 => rfl
    | m + 1 =>
      have hdiv : (m + 1) / b ≤ f := by
        have h1 : (m + 1) / b < m + 1 := Nat.div_lt_self (Nat.succ_pos m) hb
        omega
      show digitsVal b ((m + 1) % b :: digitsFuel b f ((m + 1) / b)) = m + 1
      unfold digitsVal
      simp only [List.foldr_cons]
      have := ih ((m + 1) / b) hdiv
      unfold digitsVal at this
      rw [this, Nat.mul_comm, Nat.div_add_mod]

theorem digitsFuel_mem_lt (b : Nat) (hb : 0 < b) :
    ∀ fuel n d, d ∈ digitsFuel b fuel n → d < b := by
  intro fuel
  induction fuel with
  | zero => intro n d hd; simp [digitsFuel] at hd
  | succ f ih =>
    intro n d hd
    match n with
    | 0 => simp [digitsFuel] at hd
    | m + 1 =>
      simp only [digitsFuel, List.mem_cons] at hd
      rcases hd with h | h
      · subst h; exact Nat.mod_lt _ hb
      · exact ih _ _ h

theorem digitsFuel_ne_nil (b : Nat) :
    ∀ fuel n, 0 < n → n ≤ fuel → digitsFuel b fuel n ≠ [] := by
  intro fuel n hn hf
  cases fuel with
  | zero => omega
  | succ f =>
    cases n with
    | zero => omega
    | succ m => simp [digitsFuel]

theorem digitsFuel_getLast?_ne_zero (b : Nat) (hb : 2 ≤ b) :
    ∀ fuel n, 0 < n → n ≤ fuel → (digitsFuel b fuel n).getLast? ≠ some 0 := by
  intro fuel
  induction fuel with
  | zero => intro n hn hf; omega
  | succ f ih =>
    intro n hn hf
    match n, hn with
    | m + 1, _ =>
      show ((m + 1) % b :: digitsFuel b f ((m + 1) / b)).getLast? ≠ some 0
      by_cases hq : (m + 1) / b = 0
      · have hmod : (m + 1) % b = m + 1 := by
          have h := Nat.div_add_mod (m + 1) b
          rw [hq, Nat.mul_zero, Nat.zero_add] at h
          exact h
        rw [hq, digitsFuel_zero]
        simp [hmod]
      · have hq1 : 0 < (m + 1) / b := Nat.pos_of_ne_zero hq
        have hq2 : (m + 1) / b ≤ f := by
          have h1 : (m + 1) / b < m + 1 := Nat.div_lt_self (Nat.succ_pos m) hb
          omega
        have hne := digitsFuel_ne_nil b f _ hq1 hq2
        have hsplit : (m + 1) % b :: digitsFuel b f ((m + 1) / b) =
            [(m + 1) % b] ++ digitsFuel b f ((m + 1) / b) := rfl
        rw [hsplit, List.getLast?_append_of_ne_nil _ hne]
        exact ih _ hq1 hq2

theorem beValue_cons (x : Nat) (l : List Nat) :
    beValue (x :: l) = l.foldl (fun a b => a * 256 + b) x := by
  simp [beValue]

theorem beValue_aux (l : List Nat) :
    ∀ a, l.foldl (fun acc b => acc * 256 + b) a = a * 256 ^ l.length + beValue l := by
  induction l with
  | nil => intro a; simp [beValue]
  | cons x xs ih =>
    intro a
    show (xs.foldl _ (a * 256 + x)) = _
    rw [ih (a * 256 + x), beValue_cons, ih x]
    ring_nf
    simp [List.length_cons, pow_succ]
    ring

theorem beValue_concat (l : List Nat) (x : Nat) :
    beValue (l ++ [x]) = 256 * beValue l + x := by
  unfold beValue
  rw [List.foldl_append]
  simp [beValue_aux]
  ring

theorem beValue_replicate_zero (z : Nat) (l : List Nat) :
    beValue (List.replicate z 0 ++ l) = beValue l := by
  induction z with
  | zero => rfl
  | succ k ih =>
    show beValue (0 :: (List.replicate k 0 ++ l)) = beValue l
    rw [beValue_cons, ← beValue_cons 0 _] at *
    simpa using ih

theorem beValue_head_pos (a : Nat) (t : List Nat) (ha : a ≠ 0) :
    0 < beValue (a :: t) := by
  rw [beValue_cons, beValue_aux]
  have : 0 < a * 256 ^ t.length :=
    Nat.mul_pos (Nat.pos_of_ne_zero ha) (Nat.pos_pow_of_pos _ (by omega))
  omega

theorem digitsFuel_beValue :
    ∀ p : List Nat, (∀ x ∈ p, x < 256) → p.head? ≠ some 0 →
    ∀ fuel, beValue p ≤ fuel → digitsFuel 256 fuel (beValue p) = p.reverse := by
  intro p
  induction p using List.reverseRecOn with
  | nil => intro _ _ fuel _; simp [beValue, digitsFuel_zero]
  | append_singleton q d ihq =>
    intro hlt hhead fuel hfuel
    have hd : d < 256 := hlt d (by simp)
    have hqlt : ∀ x ∈ q, x < 256 := fun x hx => hlt x (by simp [hx])
    have hqhead : q.head? ≠ some 0 := by
      cases q with
      | nil => simp
      | cons a t => simpa using hhead
    have hbv := beValue_concat q d
    have hpos : q ≠ [] → 0 < beValue q := by
      intro hq
      match q, hq with
      | a :: t, _ =>
        have ha : a ≠ 0 := by simpa using hqhead
        exact beValue_head_pos a t ha
    by_cases hq0 : beValue (q ++ [d]) = 0
    · exfalso
      rw [hbv] at hq0
      cases q with
      | nil =>
        have hd0 : d = 0 := by omega
        subst hd0
        simp at hhead
      | cons a t =>
        have := hpos (by simp)
        omega
    · obtain ⟨f, rfl⟩ : ∃ f, fuel = f + 1 := ⟨fuel - 1, by omega⟩
      obtain ⟨m, hm⟩ : ∃ m, beValue (q ++ [d]) = m + 1 :=
        ⟨beValue (q ++ [d]) - 1, by omega⟩
      rw [hm]
      show (m + 1) % 256 :: digitsFuel 256 f ((m + 1) / 256) = (q ++ [d]).reverse
      rw [hbv] at hm
      have hmod : (m + 1) % 256 = d := by omega
      have hdiv : (m + 1) / 256 = beValue q := by omega
      rw [hmod, hdiv]
      by_cases hbq0 : beValue q = 0
      · cases q with
        | nil => simp [hbq0, digitsFuel_zero]
        | cons a t =>
          have := hpos (by simp)
          omega
      · have hle : beValue q ≤ f := by omega
        rw [ihq hqlt hqhead f hle]
        simp

/-! ## Base58 codec facts -/

theorem beDigitsVal_replicate_zero (b z : Nat) (l : List Nat) :
    beDigitsVal b (List.replicate z 0 ++ l) = beDigitsVal b l := by
  induction z with
  | zero => rfl
  | succ k ih =>
    show beDigitsVal b (0 :: (List.replicate k 0 ++ l)) = _
    unfold beDigitsVal at *
    simpa using ih

theorem beDigitsVal_reverse (b : Nat) (l : List Nat) :
    beDigitsVal b l.reverse = digitsVal b l := by
  unfold beDigitsVal digitsVal
  rw [List.foldl_reverse]

theorem base58CharVal_base58Char (d : Nat) (hd : d < 58) :
    base58CharVal (base58Char d) = some d := by
  have h : ∀ e : Fin 58, base58CharVal (base58Char e.val) = some e.val := by decide
  exact h ⟨d, hd⟩

theorem base58Char_ne_one (d : Nat) (h0 : d ≠ 0) (hd : d < 58) :
    base58Char d ≠ '1' := by
  have h : ∀ e : Fin 58, e.val ≠ 0 → base58Char e.val ≠ '1' := by decide
  exact h ⟨d, hd⟩ h0

theorem mapOptionList_append {α β : Type} (f : α → Option β) (l1 l2 : List α)
    (xs ys : List β) (h1 : mapOptionList f l1 = some xs)
    (h2 : mapOptionList f l2 = some ys) :
    mapOptionList f (l1 ++ l2) = some (xs ++ ys) := by
  induction l1 generalizing xs with
  | nil =>
    simp only [mapOptionList] at h1
    cases h1
    simpa using h2
  | cons a t ih =>
    simp only [mapOptionList] at h1 ⊢
    cases hfa : f a with
    | none => rw [hfa] at h1; simp at h1
    | some b =>
      rw [hfa] at h1
      cases hft : mapOptionList f t with
      | none => rw [hft] at h1; simp at h1
      | some bs =>
        rw [hft] at h1
        simp only at h1
        cases h1
        rw [List.append_eq, ih bs hft]
        rfl

theorem mapOptionList_base58CharVal (l : List Nat) (h : ∀ d ∈ l, d < 58) :
    mapOptionList base58CharVal (l.map base58Char) = some l := by
  induction l with
  | nil => rfl
  | cons d t ih =>
    simp only [List.map_cons, mapOptionList]
    rw [base58CharVal_base58Char d (h d (by simp)),
      ih (fun x hx => h x (by simp [hx]))]

theorem mapOptionList_base58CharVal_one (z : Nat) :
    mapOptionList base58CharVal (List.replicate z '1') =
      some (List.replicate z 0) := by
  induction z with
  | zero => rfl
  | succ k ih =>
    simp only [List.replicate_succ, mapOptionList]
    rw [ih]
    rfl

theorem digitsVal_natDigits (b n : Nat) (hb : 2 ≤ b) :
    digitsVal b (natDigits b n) = n :=
  digitsVal_digitsFuel b hb n n le_rfl

theorem natDigits_getLast?_ne_zero (b v : Nat) (hb : 2 ≤ b) (hv : 0 < v) :
    (natDigits b v).getLast? ≠ some 0 :=
  digitsFuel_getLast?_ne_zero b hb v v hv le_rfl

/-- Base58 decoding inverts base58 encoding on byte lists. -/
theorem base58_roundtrip (p : List Nat) (hlt : ∀ x ∈ p, x < 256) :
    base58Decode (base58Encode p) = some p := by
  have hsplit := List.takeWhile_append_dropWhile (p := fun b => b == 0) (l := p)
  have htake : p.takeWhile (fun b => b == 0) =
      List.replicate (p.takeWhile (fun b => b == 0)).length 0 := by
    apply List.eq_replicate_of_mem
    intro x hx
    have := List.mem_takeWhile_imp hx
    simpa using this
  set z := (p.takeWhile (fun b => b == 0)).length with hz
  set rest := p.dropWhile (fun b => b == 0) with hrestdef
  have hp : p = List.replicate z 0 ++ rest := by
    rw [← htake, hsplit]
  have hresthead : rest.head? ≠ some 0 := by
    have hnot := List.head?_dropWhile_not (fun b => b == 0) p
    rw [← hrestdef] at hnot
    cases hh : rest.head? with
    | none => simp
    | some x =>
      rw [hh] at hnot
      simp only at hnot
      simp only [beq_eq_false_iff_ne, ne_eq] at hnot
      simpa using hnot
  have hrestlt : ∀ x ∈ rest, x < 256 := by
    intro x hx
    exact hlt x (by rw [hp]; simp [hx])
  have hv : beValue p = beValue rest := by
    rw [hp, beValue_replicate_zero]
  have hdslt : ∀ d ∈ natDigits 58 (beValue rest), d < 58 :=
    fun d hd => digitsFuel_mem_lt 58 (by omega) _ _ d hd
  have henc : base58Encode p =
      ⟨List.replicate z '1' ++ ((natDigits 58 (beValue rest)).map base58Char).reverse⟩ := by
    unfold base58Encode
    rw [← hz, hv]
  rw [henc]
  unfold base58Decode
  have htl : (⟨List.replicate z '1' ++
      ((natDigits 58 (beValue rest)).map base58Char).reverse⟩ : String).toList =
      List.replicate z '1' ++ ((natDigits 58 (beValue rest)).map base58Char).reverse := rfl
  rw [htl]
  have hm2 : mapOptionList base58CharVal
      (((natDigits 58 (beValue rest)).map base58Char).reverse) =
      some (natDigits 58 (beValue rest)).reverse := by
    rw [← List.map_reverse]
    exact mapOptionList_base58CharVal _ (fun d hd => hdslt d (List.mem_reverse.mp hd))
  have hchars : mapOptionList base58CharVal (List.replicate z '1' ++
      ((natDigits 58 (beValue rest)).map base58Char).reverse) =
      some (List.replicate z 0 ++ (natDigits 58 (beValue rest)).reverse) :=
    mapOptionList_append _ _ _ _ _ (mapOptionList_base58CharVal_one z) hm2
  rw [hchars]
  have htw : (List.replicate z '1' ++
      ((natDigits 58 (beValue rest)).map base58Char).reverse).takeWhile
        (fun c => c == '1') = List.replicate z '1' := by
    rw [List.takeWhile_append_of_pos (by
      intro a ha
      have := List.eq_of_mem_replicate ha
      simp [this])]
    rw [← List.map_reverse]
    cases hrv : (natDigits 58 (beValue rest)).reverse with
    | nil => simp
    | cons d0 t0 =>
      have hvpos : 0 < beValue rest := by
        by_contra hnp
        have h0 : beValue rest = 0 := by omega
        have hnil : natDigits 58 (beValue rest) = [] := by
          rw [h0]; exact digitsFuel_zero 58 0
        rw [hnil] at hrv
        simp at hrv
      have hlast := natDigits_getLast?_ne_zero 58 (beValue rest) (by omega) hvpos
      have hd0mem : (natDigits 58 (beValue rest)).getLast? = some d0 := by
        rw [← List.head?_reverse, hrv]
        rfl
      have hd0ne : d0 ≠ 0 := by
        intro h
        rw [h] at hd0mem
        exact hlast hd0mem
      have hd0lt : d0 < 58 := by
        apply hdslt
        apply List.mem_reverse.mp
        rw [hrv]
        simp
      have hne1 := base58Char_ne_one d0 hd0ne hd0lt
      simp only [List.map_cons]
      rw [List.takeWhile_cons_of_neg (by simpa using hne1)]
      simp
  rw [Option.map_some']
  rw [beDigitsVal_replicate_zero, beDigitsVal_reverse,
    digitsVal_natDigits 58 _ (by omega)]
  have hbe : natToBEBytes (beValue rest) = rest := by
    unfold natToBEBytes natDigits
    rw [digitsFuel_beValue rest hrestlt hresthead (beValue rest) le_rfl]
    exact List.reverse_reverse rest
  rw [hbe, htw]
  simp only [List.length_replicate]
  exact congrArg some (show List.replicate z 0 ++ rest = p from hp.symm)

/-! ## Shape of hash outputs -/

theorem leBytesFix_length (n v : Nat) : (leBytesFix n v).length = n := by
  induction n generalizing v with
  | zero => rfl
  | succ k ih => simp [leBytesFix, ih]

theorem leBytesFix_mem_lt (n v : Nat) : ∀ x ∈ leBytesFix n v, x < 256 := by
  induction n generalizing v with
  | zero => simp [leBytesFix]
  | succ k ih =>
    intro x hx
    simp only [leBytesFix, List.mem_cons] at hx
    rcases hx with h | h
    · subst h; exact Nat.mod_lt _ (by omega)
    · exact ih _ x h

theorem beBytesFix_length (n v : Nat) : (beBytesFix n v).length = n := by
  simp [beBytesFix, leBytesFix_length]

theorem beBytesFix_mem_lt (n v : Nat) : ∀ x ∈ beBytesFix n v, x < 256 := by
  intro x hx
  exact leBytesFix_mem_lt n v x (List.mem_reverse.mp hx)

theorem sha256_length (msg : List Nat) : (sha256 msg).length = 32 := by
  unfold sha256
  simp [beBytesFix_length]

theorem sha256_mem_lt (msg : List Nat) : ∀ x ∈ sha256 msg, x < 256 := by
  unfold sha256
  intro x hx
  simp only [List.mem_append] at hx
  rcases hx with ((((((h | h) | h) | h) | h) | h) | h) | h <;>
    exact beBytesFix_mem_lt _ _ x h

theorem sha256Twice_length (msg : List Nat) : (sha256Twice msg).length = 32 :=
  sha256_length _

theorem sha256Twice_mem_lt (msg : List Nat) : ∀ x ∈ sha256Twice msg, x < 256 :=
  sha256_mem_lt _

/-! ## WIF round trip (claim C4) -/

/-- On a payload carrying its own correct checksum, `from_wif` gets past the
checksum test with exactly that payload. -/
theorem fromWif_checksum_ok (toSeed : List Nat → List Nat) (p : List Nat)
    (hlt : ∀ x ∈ p, x < 256) :
    fromWif toSeed (base58Encode (p ++ (sha256Twice p).take 4)) =
      fromWifBody toSeed p := by
  have hckslt : ∀ x ∈ (sha256Twice p).take 4, x < 256 :=
    fun x hx => sha256Twice_mem_lt p x (List.mem_of_mem_take hx)
  have hall : ∀ x ∈ p ++ (sha256Twice p).take 4, x < 256 := by
    intro x hx
    rcases List.mem_append.mp hx with h | h
    · exact hlt x h
    · exact hckslt x h
  have hcklen : ((sha256Twice p).take 4).length = 4 := by
    rw [List.length_take, sha256Twice_length]
    omega
  have hlen : (p ++ (sha256Twice p).take 4).length - 4 = p.length := by
    rw [List.length_append, hcklen]
    omega
  unfold fromWif
  rw [base58_roundtrip _ hall]
  simp only [hlen, List.drop_left' rfl, List.take_left' rfl, ne_eq,
    not_true_eq_false]
  simp

/-- On a payload whose four final bytes are not its checksum, `from_wif`
fails with `ChecksumMismatch`. -/
theorem fromWif_checksum_bad (toSeed : List Nat → List Nat)
    (p altered : List Nat) (hlt : ∀ x ∈ p, x < 256)
    (halt : ∀ x ∈ altered, x < 256) (hlen4 : altered.length = 4)
    (hne : altered ≠ (sha256Twice p).take 4) :
    fromWif toSeed (base58Encode (p ++ altered)) =
      some (.error .checksumMismatch) := by
  have hall : ∀ x ∈ p ++ altered, x < 256 := by
    intro x hx
    rcases List.mem_append.mp hx with h | h
    · exact hlt x h
    · exact halt x h
  have hlen : (p ++ altered).length - 4 = p.length := by
    rw [List.length_append, hlen4]
    omega
  unfold fromWif
  rw [base58_roundtrip _ hall]
  simp only [hlen, List.drop_left' rfl, List.take_left' rfl, ne_eq]
  rw [if_pos (fun h => hne h.symm)]

/-- The byte string assembled by `to_wif` before the checksum. -/
theorem toWif_payload (k : Key) :
    Key.toWif k = base58Encode
      ((((match k.network with
          | .mainnet => 0x80
          | .testnet => 0xef) :: k.bytes) ++
        (if k.compressPublicKeys then [0x01] else [])) ++
       (sha256Twice (((match k.network with
          | .mainnet => 0x80
          | .testnet => 0xef) :: k.bytes) ++
        (if k.compressPublicKeys then [0x01] else []))).take 4) := rfl

theorem fromWifBody_compressed (toSeed : List Nat → List Nat) (v : Nat)
    (bytes : List Nat) (h32 : bytes.length = 32) (net : Network)
    (hnet : (if v = 0x80 then Except.ok Network.mainnet
      else if v = 0xef then Except.ok Network.testnet
      else Except.error KeyError.invalidNetworkByte) = .ok net) :
    fromWifBody toSeed (v :: (bytes ++ [0x01])) =
      some (.ok ⟨bytes, net, true, (sha512 (toSeed bytes)).drop 32⟩) := by
  simp only [fromWifBody]
  rw [hnet]
  simp only [List.getLast?_concat]
  have hlen : (bytes ++ [0x01]).length = 33 := by simp [h32]
  have hcmp : (decide ((bytes ++ [0x01]).length > 32) && (0x01 == 0x01)) = true := by
    rw [hlen]
    rfl
  simp only [hcmp, if_true, List.dropLast_concat]
  rw [if_pos (by rw [h32]; right; right; right; right; rfl)]

theorem fromWifBody_uncompressed (toSeed : List Nat → List Nat) (v : Nat)
    (bytes : List Nat) (h32 : bytes.length = 32) (net : Network)
    (hnet : (if v = 0x80 then Except.ok Network.mainnet
      else if v = 0xef then Except.ok Network.testnet
      else Except.error KeyError.invalidNetworkByte) = .ok net) :
    fromWifBody toSeed (v :: bytes) =
      some (.ok ⟨bytes, net, false, (sha512 (toSeed bytes)).drop 32⟩) := by
  simp only [fromWifBody]
  rw [hnet]
  have hbne : bytes ≠ [] := by
    intro h
    rw [h] at h32
    simp at h32
  obtain ⟨a, ha⟩ : ∃ a, bytes.getLast? = some a := by
    cases h : bytes.getLast? with
    | none => exact absurd (List.getLast?_eq_none_iff.mp h) hbne
    | some a => exact ⟨a, rfl⟩
  rw [ha]
  have hcmp : (decide (bytes.length > 32) && (a == 0x01)) = false := by
    rw [h32]
    rfl
  simp only [hcmp, if_false, Bool.false_eq_true]
  rw [if_pos (by rw [h32]; right; right; right; right; rfl)]

/-- Claim C4 — for every well-formed `Key`, `from_wif ∘ to_wif` succeeds and
recovers the key bytes, the network, and the compression flag (the chain
code is recomputed from the external seed derivation). -/
theorem wif_round_trip (toSeed : List Nat → List Nat) (k : Key)
    (h32 : k.bytes.length = 32) (hlt : ∀ b ∈ k.bytes, b < 256) :
    fromWif toSeed (Key.toWif k) =
      some (.ok ⟨k.bytes, k.network, k.compressPublicKeys,
        (sha512 (toSeed k.bytes)).drop 32⟩) := by
  obtain ⟨bytes, net, flag, chain⟩ := k
  simp only at h32 hlt ⊢
  have hbu : ∀ v : Nat, v < 256 → ∀ x ∈ v :: bytes, x < 256 := by
    intro v hvlt x hx
    rcases List.mem_cons.mp hx with h1 | h1
    · omega
    · exact hlt x h1
  have hbc : ∀ v : Nat, v < 256 → ∀ x ∈ v :: (bytes ++ [0x01]), x < 256 := by
    intro v hvlt x hx
    rcases List.mem_cons.mp hx with h1 | h1
    · omega
    · rcases List.mem_append.mp h1 with h2 | h2
      · exact hlt x h2
      · simp at h2; omega
  cases net <;> cases flag
  · -- mainnet, uncompressed
    have e1 : Key.toWif ⟨bytes, .mainnet, false, chain⟩ = base58Encode
        ((0x80 :: bytes) ++ (sha256Twice (0x80 :: bytes)).take 4) := by
      rw [toWif_payload]
      simp
    rw [e1, fromWif_checksum_ok _ _ (hbu 0x80 (by omega))]
    exact fromWifBody_uncompressed toSeed 0x80 bytes h32 .mainnet rfl
  · -- mainnet, compressed
    have e1 : Key.toWif ⟨bytes, .mainnet, true, chain⟩ = base58Encode
        ((0x80 :: (bytes ++ [0x01]))
          ++ (sha256Twice (0x80 :: (bytes ++ [0x01]))).take 4) := by
      rw [toWif_payload]
      simp
    rw [e1, fromWif_checksum_ok _ _ (hbc 0x80 (by omega))]
    exact fromWifBody_compressed toSeed 0x80 bytes h32 .mainnet rfl
  · -- testnet, uncompressed
    have e1 : Key.toWif ⟨bytes, .testnet, false, chain⟩ = base58Encode
        ((0xef :: bytes) ++ (sha256Twice (0xef :: bytes)).take 4) := by
      rw [toWif_payload]
      simp
    rw [e1, fromWif_checksum_ok _ _ (hbu 0xef (by omega))]
    exact fromWifBody_uncompressed toSeed 0xef bytes h32 .testnet rfl
  · -- testnet, compressed
    have e1 : Key.toWif ⟨bytes, .testnet, true, chain⟩ = base58Encode
        ((0xef :: (bytes ++ [0x01]))
          ++ (sha256Twice (0xef :: (bytes ++ [0x01]))).take 4) := by
      rw [toWif_payload]
      simp
    rw [e1, fromWif_checksum_ok _ _ (hbc 0xef (by omega))]
    exact fromWifBody_compressed toSeed 0xef bytes h32 .testnet rfl

/-! ## WIF tampering (claim C7) -/

theorem toWif_eq_payload (k : Key) :
    Key.toWif k =
      base58Encode (wifPayload k ++ (sha256Twice (wifPayload k)).take 4) := rfl

theorem wifPayload_mem_lt (k : Key) (hlt : ∀ b ∈ k.bytes, b < 256) :
    ∀ x ∈ wifPayload k, x < 256 := by
  obtain ⟨bs, net, fl, cc⟩ := k
  simp only at hlt
  intro x hx
  unfold wifPayload at hx
  simp only at hx
  rcases List.mem_append.mp hx with h | h
  · rcases List.mem_cons.mp h with h1 | h1
    · cases net <;> (simp only at h1; omega)
    · exact hlt x h1
  · cases fl
    · simp at h
    · simp at h
      omega

/-- Claim C7 (amended) — altering the four checksum bytes of a well-formed
WIF string in any way yields `ChecksumMismatch`; replacing the version byte
with anything outside `{0x80, 0xef}` and re-encoding with a matching
checksum yields `InvalidNetworkByte` (with the original checksum kept, the
checksum test fails first — see the counterexample). -/
theorem wif_tampering (toSeed : List Nat → List Nat) :
    (∀ (k : Key) (altered : List Nat),
      (∀ b ∈ k.bytes, b < 256) → altered.length = 4 →
      (∀ b ∈ altered, b < 256) →
      altered ≠ (sha256Twice (wifPayload k)).take 4 →
      fromWif toSeed (base58Encode (wifPayload k ++ altered)) =
        some (.error .checksumMismatch)) ∧
    (∀ (v : Nat) (body : List Nat),
      v < 256 → v ≠ 0x80 → v ≠ 0xef → (∀ b ∈ body, b < 256) →
      fromWif toSeed
          (base58Encode ((v :: body) ++ (sha256Twice (v :: body)).take 4)) =
        some (.error .invalidNetworkByte)) := by
  constructor
  · intro k altered hk hlen4 halt hne
    exact fromWif_checksum_bad toSeed _ altered (wifPayload_mem_lt k hk)
      halt hlen4 hne
  · intro v body hvlt hv80 hvef hbody
    rw [fromWif_checksum_ok toSeed _ (by
      intro x hx
      rcases List.mem_cons.mp hx with h1 | h1
      · omega
      · exact hbody x h1)]
    simp only [fromWifBody]
    rw [if_neg hv80, if_neg hvef]

/-! ## Hardened derivation ignores the index (claims C10, C2) -/

/-- Claim C10 — for any two in-range hardened indices, hardened child
derivation returns byte-identical keys and chain codes: the range check is
the only place the index is consulted. -/
theorem hardened_ignores_index (k : Key) (i j : Nat)
    (hi1 : 2147483647 ≤ i) (hi2 : i ≤ 4294967295)
    (hj1 : 2147483647 ≤ j) (hj2 : j ≤ 4294967295) :
    Key.deriveChildPrivateKey k i .hardened =
      Key.deriveChildPrivateKey k j .hardened ∧
    ∃ ci cj, Key.deriveChildPrivateKey k i .hardened = .ok ci ∧
      Key.deriveChildPrivateKey k j .hardened = .ok cj ∧
      ci.bytes = cj.bytes ∧ ci.chainCode = cj.chainCode := by
  unfold Key.deriveChildPrivateKey
  rw [if_neg (by simp), if_neg (by simp; omega), if_neg (by simp),
    if_neg (by simp; omega)]
  exact ⟨rfl, _, _, rfl, rfl, rfl, rfl⟩

/-- Witness for C10 at a concrete key and the extreme in-range indices. -/
theorem hardened_ignores_index_witness :
    (2147483647 ≤ 2147483648 ∧ 2147483648 ≤ 4294967295 ∧
     2147483647 ≤ 4294967295 ∧ 4294967295 ≤ 4294967295) ∧
    Key.deriveChildPrivateKey keyOne 2147483648 .hardened =
      Key.deriveChildPrivateKey keyOne 4294967295 .hardened :=
  ⟨by omega,
   (hardened_ignores_index keyOne 2147483648 4294967295
     (by omega) (by omega) (by omega) (by omega)).1⟩

/-- Claim C2 fails on the code: the hardened branch of
`derive_child_private_key` builds `private_key_bytes || le(index)` but then
feeds only `private_key_bytes` to the HMAC.  At the all-zero-chain scalar-one
key: two different hardened indices give the same child, the child's chain
code is the second half of `HMAC-SHA512(data = parent bytes alone)`, and
that differs from the second half of the claim's
`HMAC-SHA512(data = parent bytes || le(index))`. -/
theorem hardened_hmac_drops_index :
    Key.deriveChildPrivateKey keyOne 2147483648 .hardened =
      Key.deriveChildPrivateKey keyOne 3000000000 .hardened ∧
    (Key.deriveChildPrivateKey keyOne 2147483648 .hardened).map Key.chainCode =
      .ok ((hmacSha512 keyOne.bytes keyOne.chainCode).drop 32) ∧
    (hmacSha512 (keyOne.bytes ++ leBytesFix 8 2147483648) keyOne.chainCode).drop 32 ≠
      (hmacSha512 keyOne.bytes keyOne.chainCode).drop 32 := by
  refine ⟨by decide, by decide, by decide⟩

/-! ## Child-scalar arithmetic diverges from the specification (claim C1) -/

/-- Claim C1 fails on the code: for the valid parent scalar `0xff` with
all-zero chain code, normal derivation at index 0 succeeds but returns
bytes (hex `d5321e…a336`) different from the 32-byte big-endian encoding of
`(IL + parent) mod n` (hex `d4321e…e577`): the code reads `IL`, the parent
bytes and the big-endian `CURVE_ORDER` constant all as signed little-endian
integers, takes Rust's truncated remainder, and re-encodes signed
little-endian. -/
theorem child_scalar_arithmetic_diverges :
    validSecretKeyBytes keyFF.bytes ∧
    (Key.deriveChildPrivateKey keyFF 0 .normal).isOk = true ∧
    c1CodeBytes ≠ c1SpecBytes := by
  refine ⟨by decide, by decide, by decide⟩

/-! ## Address checksum length (claim C3) -/

/-- Claim C3 fails on the code at the scalar-one key: the code's address
(73 characters — the full 32-byte double-SHA256 appended) differs from the
claim's Base58Check address with a 4-byte checksum (which at this key is
the classic `1BgGZ9tcN4rm9KBzDn7KprQz87SZ26SAMH`). -/
theorem address_checksum_counterexample :
    Key.address keyOne = .ok
      "1V7Yt9fTi98aFE6sYoEb2TtanCsa5uC3qCPzFBjULbLvEzEqhemugFeXT9QLfbLUpnjZSYXv" ∧
    claimAddress keyOne = .ok "1BgGZ9tcN4rm9KBzDn7KprQz87SZ26SAMH" ∧
    Key.address keyOne ≠ claimAddress keyOne := by
  refine ⟨by decide, by decide, by decide⟩

/-- Claim C3 (amended) — `address()` returns the Base58 encoding of the
network version byte, then `RIPEMD160(SHA256(public_key))`, then the FULL
32-byte `SHA256(SHA256(version byte || hash))` digest (not just its first
four bytes). -/
theorem address_full_checksum (k : Key) (pk : List Nat)
    (hpk : Key.newPublicKey k = .ok pk) :
    Key.address k = .ok (base58Encode
      (((match k.network with
         | .mainnet => 0x00
         | .testnet => 0x6f) :: ripemd160 (sha256 pk)) ++
       sha256Twice ((match k.network with
         | .mainnet => 0x00
         | .testnet => 0x6f) :: ripemd160 (sha256 pk)))) := by
  unfold Key.address
  rw [hpk]

/-- Witness for the amended C3 at the scalar-one key. -/
theorem address_full_checksum_witness :
    Key.newPublicKey keyOne = .ok (serializeCompressed (secpGx, secpGy)) ∧
    Key.address keyOne = .ok (base58Encode
      ((0x00 :: ripemd160 (sha256 (serializeCompressed (secpGx, secpGy)))) ++
       sha256Twice (0x00 :: ripemd160 (sha256 (serializeCompressed (secpGx, secpGy)))))) :=
  ⟨by decide, address_full_checksum keyOne _ (by decide)⟩

/-! ## Address lookup only checks the root and can loop forever (claim C9) -/

/-- Claim C9 fails on the code: on a wallet whose root key is present and
whose address computes fine, querying an address other than the root's does
not return `None` — the source's `loop {}` runs forever. -/
theorem get_address_diverges_counterexample :
    Wallet.getAddress walletOne "" = .diverges ∧
    LookupOutcome.diverges ≠ .returns none := by
  refine ⟨by decide, by decide⟩

/-- Claim C9 (amended) — `get_address` checks only the root: it returns the
root key when the query matches the root's address, returns `None` when
there is no root, the root id is missing from the arena, or the root's
address fails to compute, and loops forever (diverges) when the root's
address computes but differs from the query. -/
theorem get_address_cases (w : Wallet) (a : String) :
    (w.arena.rootId = none → Wallet.getAddress w a = .returns none) ∧
    (∀ id, w.arena.rootId = some id → Wallet.get w id = none →
      Wallet.getAddress w a = .returns none) ∧
    (∀ id kp e, w.arena.rootId = some id → Wallet.get w id = some kp →
      kp.privateKey.address = .error e →
      Wallet.getAddress w a = .returns none) ∧
    (∀ id kp addr, w.arena.rootId = some id → Wallet.get w id = some kp →
      kp.privateKey.address = .ok addr →
      Wallet.getAddress w a =
        if a = addr then .returns (some kp.privateKey) else .diverges) := by
  refine ⟨?_, ?_, ?_, ?_⟩
  · intro h
    unfold Wallet.getAddress
    rw [h]
  · intro id h1 h2
    simp only [Wallet.getAddress, h1, h2]
  · intro id kp e h1 h2 h3
    simp only [Wallet.getAddress, h1, h2, h3]
  · intro id kp addr h1 h2 h3
    simp only [Wallet.getAddress, h1, h2, h3]

/-- Witness for the amended C9: on `walletOne`, the matching query returns
the root key and a non-matching query diverges. -/
theorem get_address_cases_witness :
    Wallet.getAddress walletOne
      "1V7Yt9fTi98aFE6sYoEb2TtanCsa5uC3qCPzFBjULbLvEzEqhemugFeXT9QLfbLUpnjZSYXv" =
      .returns (some keyOne) ∧
    Wallet.getAddress walletOne "x" = .diverges := by
  have h := (get_address_cases walletOne
    "1V7Yt9fTi98aFE6sYoEb2TtanCsa5uC3qCPzFBjULbLvEzEqhemugFeXT9QLfbLUpnjZSYXv").2.2.2
    0 ⟨keyOne, serializeCompressed (secpGx, secpGy), .master, none⟩
    "1V7Yt9fTi98aFE6sYoEb2TtanCsa5uC3qCPzFBjULbLvEzEqhemugFeXT9QLfbLUpnjZSYXv"
    (by decide) (by decide) (by decide)
  have h2 := (get_address_cases walletOne "x").2.2.2
    0 ⟨keyOne, serializeCompressed (secpGx, secpGy), .master, none⟩
    "1V7Yt9fTi98aFE6sYoEb2TtanCsa5uC3qCPzFBjULbLvEzEqhemugFeXT9QLfbLUpnjZSYXv"
    (by decide) (by decide) (by decide)
  rw [if_pos rfl] at h
  rw [if_neg (by decide)] at h2
  exact ⟨h, h2⟩

/-! ## Wallet persistence (claim C8) -/

theorem deserializeBytes_serializeBytes (bs : List Nat) :
    deserializeBytes (serializeBytes bs) = .ok bs := by
  unfold serializeBytes deserializeBytes
  induction bs with
  | nil => rfl
  | cons b t ih =>
    simp only [List.map_cons, mapExceptList]
    rw [show (mapExceptList (fun j => match j with
      | .num n => Except.ok n
      | _ => Except.error "expected a number") (t.map Json.num)) = .ok t from ih]

theorem exceptOk_bind {ε α β : Type} (a : α) (f : α → Except ε β) :
    (Except.ok a >>= f) = f a := rfl

theorem exceptOk_map {ε α β : Type} (a : α) (f : α → β) :
    (f <$> (Except.ok a : Except ε α)) = Except.ok (f a) := rfl

theorem deserializeKey_serializeKey (k : Key) :
    deserializeKey (serializeKey k) = .ok k := by
  obtain ⟨bytes, net, flag, chain⟩ := k
  cases net <;>
    simp +decide [serializeKey, deserializeKey, jField, List.lookup,
      exceptOk_bind, exceptOk_map, deserializeBytes_serializeBytes,
      serializeNetwork, deserializeNetwork, deserializeBool]

theorem deserializeKeyPair_serializeKeyPair (kp : KeyPair) :
    deserializeKeyPair (serializeKeyPair kp) = .ok kp := by
  obtain ⟨k, pub, kt, idx⟩ := kp
  cases kt <;> cases idx <;>
    simp +decide [serializeKeyPair, deserializeKeyPair, jField, List.lookup,
      exceptOk_bind, exceptOk_map, deserializeKey_serializeKey,
      deserializeBytes_serializeBytes, serializeKeyType, deserializeKeyType,
      deserializeOptNum]

theorem deserializeArenaNode_serializeArenaNode (n : ArenaNode) :
    deserializeArenaNode (serializeArenaNode n) = .ok n := by
  obtain ⟨data, label, parent⟩ := n
  cases parent <;>
    simp +decide [serializeArenaNode, deserializeArenaNode, jField,
      List.lookup, exceptOk_bind, exceptOk_map,
      deserializeKeyPair_serializeKeyPair, deserializeOptNum]

theorem deserializeArena_serializeArena (a : Arena) :
    deserializeArena (serializeArena a) = .ok a := by
  obtain ⟨nodes, root⟩ := a
  have hnodes : mapExceptList deserializeArenaNode
      (nodes.map serializeArenaNode) = .ok nodes := by
    induction nodes with
    | nil => rfl
    | cons n t ih =>
      simp only [List.map_cons, mapExceptList,
        deserializeArenaNode_serializeArenaNode, ih]
  cases root <;>
    simp +decide [serializeArena, deserializeArena, jField, List.lookup,
      exceptOk_bind, exceptOk_map, hnodes, deserializeOptNum]

/-- The modelled wallet deserializer is a genuine inverse of the modelled
wallet serializer: had `flush` written the wallet's own JSON document,
`from_wallet_file` would recover the wallet exactly. -/
theorem deserializeWallet_serializeWallet (w : Wallet) :
    deserializeWallet (serializeWallet w) = .ok w := by
  obtain ⟨net, path, nhi, nni, compress, arena, encrypted⟩ := w
  cases net <;>
    simp +decide [serializeWallet, deserializeWallet, jField, List.lookup,
      exceptOk_bind, exceptOk_map, deserializeArena_serializeArena,
      serializeNetwork, deserializeNetwork, deserializeBool, deserializeNum,
      serializePathBuf]

/-- Claim C8 fails on the code: for every unencrypted wallet, `flush`
writes the JSON document of the wallet's PATH (`serde_json::to_string_pretty(&self.path)`),
a JSON string, and `from_wallet_file` then fails to deserialize a `Wallet`
from it, so the persistence round trip fails. -/
theorem flush_writes_path_not_wallet (w : Wallet) (h : w.encrypted = false) :
    Wallet.flushContent w = some (Json.str w.path) ∧
    (∀ j, Wallet.flushContent w = some j →
      ∃ e, fromWalletFileContent j = .error e) ∧
    serializeWallet w ≠ serializePathBuf w.path := by
  have h1 : Wallet.flushContent w = some (Json.str w.path) := by
    unfold Wallet.flushContent
    rw [if_neg (by simp [h])]
    rfl
  refine ⟨h1, ?_, by simp [serializeWallet, serializePathBuf]⟩
  intro j hj
  rw [h1] at hj
  cases hj
  exact ⟨"expected an object for Wallet", rfl⟩

/-- Witness for C8 at a concrete unencrypted wallet. -/
theorem flush_writes_path_not_wallet_witness :
    walletOne.encrypted = false ∧
    Wallet.flushContent walletOne = some (Json.str "wallet.json") ∧
    ∃ e, fromWalletFileContent (Json.str "wallet.json") = .error e := by
  have h := flush_writes_path_not_wallet walletOne rfl
  exact ⟨rfl, h.1, h.2.1 _ h.1⟩

/-- Witness for C4: the round trip at a concrete key, with a concrete
stand-in for the external seed derivation. -/
theorem wif_round_trip_witness :
    (keyOnes.bytes.length = 32 ∧ ∀ b ∈ keyOnes.bytes, b < 256) ∧
    fromWif constSeed (Key.toWif keyOnes) =
      some (.ok ⟨keyOnes.bytes, keyOnes.network, keyOnes.compressPublicKeys,
        (sha512 (constSeed keyOnes.bytes)).drop 32⟩) :=
  ⟨⟨by decide, by decide⟩,
   wif_round_trip constSeed keyOnes (by decide) (by decide)⟩

/-- Claim C7's version-byte half fails on the code as stated: taking the
well-formed WIF payload of `keyOnes`, setting the version byte to `0x00`
and leaving everything else — the original checksum included — unchanged
makes `from_wif` fail with `ChecksumMismatch` (the checksum is tested
before the version byte ever is), not `InvalidNetworkByte`. -/
theorem wif_version_tamper_counterexample :
    fromWif constSeed (base58Encode
      ((0x00 :: (List.replicate 32 1 ++ [0x01])) ++
        (sha256Twice (wifPayload keyOnes)).take 4)) =
      some (.error .checksumMismatch) ∧
    KeyError.checksumMismatch ≠ KeyError.invalidNetworkByte := by
  refine ⟨by decide, by decide⟩

/-- Witness for the amended C7 at concrete inputs: a zeroed-out checksum
yields `ChecksumMismatch`, and version byte `0x00` with a recomputed
checksum yields `InvalidNetworkByte`. -/
theorem wif_tampering_witness :
    fromWif constSeed (base58Encode (wifPayload keyOnes ++ [0, 0, 0, 0])) =
      some (.error .checksumMismatch) ∧
    fromWif constSeed (base58Encode ((0x00 :: List.replicate 32 1) ++
      (sha256Twice (0x00 :: List.replicate 32 1)).take 4)) =
      some (.error .invalidNetworkByte) :=
  ⟨(wif_tampering constSeed).1 keyOnes [0, 0, 0, 0]
     (by decide) rfl (by decide) (by decide),
   (wif_tampering constSeed).2 0 (List.replicate 32 1)
     (by decide) (by decide) (by decide) (by decide)⟩

/-! ## Signature script substitution (claim C6) -/

theorem hexCharVal_hexDigitChar (d : Nat) (hd : d < 16) :
    hexCharVal (hexDigitChar d) = some d := by
  have h : ∀ e : Fin 16, hexCharVal (hexDigitChar e.val) = some e.val := by decide
  exact h ⟨d, hd⟩

theorem mapOptionList_hexCharVal (l : List Nat) (h : ∀ d ∈ l, d < 16) :
    mapOptionList hexCharVal (l.map hexDigitChar) = some l := by
  induction l with
  | nil => rfl
  | cons d t ih =>
    simp only [List.map_cons, mapOptionList]
    rw [hexCharVal_hexDigitChar d (h d (by simp)),
      ih (fun x hx => h x (by simp [hx]))]

theorem mapOptionList_hexCharVal_zero (z : Nat) :
    mapOptionList hexCharVal (List.replicate z '0') =
      some (List.replicate z 0) := by
  induction z with
  | zero => rfl
  | succ k ih =>
    simp only [List.replicate_succ, mapOptionList]
    rw [ih]
    rfl

/-- The zero-padded hex field written by `format!("{:0Nx}", n)` parses back
to `n`. -/
theorem hexStrVal_fmtHexPad (w n : Nat) : hexStrVal (fmtHexPad w n) = some n := by
  unfold hexStrVal fmtHexPad natToHex
  cases hn : natDigits 16 n with
  | nil =>
    have hn0 : n = 0 := by
      by_contra h
      exact digitsFuel_ne_nil 16 n n (Nat.pos_of_ne_zero h) le_rfl hn
    subst hn0
    simp only [List.length_singleton]
    rw [show (⟨List.replicate (w - 1) '0' ++ ['0']⟩ : String).toList =
      List.replicate (w - 1) '0' ++ ['0'] from rfl]
    rw [mapOptionList_append _ _ _ _ _ (mapOptionList_hexCharVal_zero (w - 1))
      (show mapOptionList hexCharVal ['0'] = some [0] from rfl)]
    simp only [Option.map_some']
    rw [show List.replicate (w - 1) 0 ++ [0] =
      List.replicate (w - 1) 0 ++ ([0] : List Nat) from rfl]
    rw [beDigitsVal_replicate_zero]
    rfl
  | cons d0 t0 =>
    have hdlt : ∀ x ∈ natDigits 16 n, x < 16 :=
      fun x hx => digitsFuel_mem_lt 16 (by omega) n n x hx
    simp only []
    rw [show (⟨List.replicate (w - ((d0 :: t0).map hexDigitChar).reverse.length) '0' ++
        ((d0 :: t0).map hexDigitChar).reverse⟩ : String).toList =
      List.replicate (w - ((d0 :: t0).map hexDigitChar).reverse.length) '0' ++
        ((d0 :: t0).map hexDigitChar).reverse from rfl]
    rw [← List.map_reverse,
      mapOptionList_append _ _ _ _ _
        (mapOptionList_hexCharVal_zero _)
        (mapOptionList_hexCharVal ((d0 :: t0).reverse)
          (fun x hx => hdlt x (by rw [hn]; exact List.mem_reverse.mp hx)))]
    simp only [Option.map_some']
    rw [beDigitsVal_replicate_zero, beDigitsVal_reverse, ← hn,
      digitsVal_natDigits 16 n (by omega)]

theorem hexEncode_length (bs : List Nat) :
    (hexEncode bs).length = 2 * bs.length := by
  unfold hexEncode
  rw [show ∀ l : List Char, (⟨l⟩ : String).length = l.length from fun _ => rfl]
  induction bs with
  | nil => rfl
  | cons b t ih =>
    simp only [List.foldr_cons, List.length_cons]
    omega

theorem asciiBytes_length (s : String) : (asciiBytes s).length = s.length := by
  unfold asciiBytes
  rw [List.length_map]
  rfl

theorem optionSome_bind {α β : Type} (a : α) (f : α → Option β) :
    ((some a : Option α) >>= f) = f a := rfl

theorem u32Pattern_lt (i : Int) : u32Pattern i < 4294967296 := by
  unfold u32Pattern
  have h0 : 0 ≤ i % ((2 : Int) ^ 32) := Int.emod_nonneg i (by norm_num)
  have h1 : i % ((2 : Int) ^ 32) < (2 : Int) ^ 32 :=
    Int.emod_lt_of_pos i (by norm_num)
  omega

theorem digitsFuel_length_le (b : Nat) (hb : 2 ≤ b) :
    ∀ fuel k n, n < b ^ k → (digitsFuel b fuel n).length ≤ k := by
  intro fuel
  induction fuel with
  | zero => intro k n _; simp [digitsFuel]
  | succ f ih =>
    intro k n hn
    cases n with
    | zero => simp [digitsFuel_zero]
    | succ m =>
      cases k with
      | zero =>
        rw [pow_zero] at hn
        omega
      | succ j =>
        have hlt : m + 1 < b * b ^ j := by
          calc m + 1 < b ^ (j + 1) := hn
            _ = b * b ^ j := by rw [pow_succ, Nat.mul_comm]
        have hdiv := Nat.div_lt_of_lt_mul hlt
        simp only [digitsFuel, List.length_cons]
        have := ih j ((m + 1) / b) hdiv
        omega

theorem natToHex_length_le (w n : Nat) (hw : 1 ≤ w) (hn : n < 16 ^ w) :
    (natToHex n).length ≤ w := by
  unfold natToHex
  cases hd : natDigits 16 n with
  | nil =>
    exact hw
  | cons d t =>
    show ((List.map hexDigitChar (d :: t)).reverse).length ≤ w
    rw [List.length_reverse, List.length_map]
    have h2 := digitsFuel_length_le 16 (by omega) n w n hn
    rw [show digitsFuel 16 n n = natDigits 16 n from rfl, hd] at h2
    exact h2

theorem natToHex_chars (n : Nat) (c : Char) (hc : c ∈ natToHex n) :
    (hexCharVal c).isSome := by
  unfold natToHex at hc
  cases hd : natDigits 16 n with
  | nil =>
    rw [hd] at hc
    replace hc : c ∈ (['0'] : List Char) := hc
    simp only [List.mem_singleton] at hc
    subst hc
    decide
  | cons d t =>
    rw [hd] at hc
    replace hc : c ∈ (List.map hexDigitChar (d :: t)).reverse := hc
    simp only [List.mem_reverse, List.mem_map] at hc
    obtain ⟨d', hd', hcd⟩ := hc
    have hlt : d' < 16 := by
      apply digitsFuel_mem_lt 16 (by omega) n n d'
      rw [show digitsFuel 16 n n = natDigits 16 n from rfl, hd]
      exact hd'
    rw [← hcd, hexCharVal_hexDigitChar d' hlt]
    rfl

theorem hexDecodeList_isSome_fuel :
    ∀ (fuel : Nat) (l : List Char), l.length ≤ fuel →
      (∀ c ∈ l, (hexCharVal c).isSome) → l.length % 2 = 0 →
      (hexDecodeList l).isSome := by
  intro fuel
  induction fuel with
  | zero =>
    intro l hl _ _
    cases l with
    | nil => rfl
    | cons c t => simp at hl
  | succ f ih =>
    intro l hl hv he
    match l with
    | [] => rfl
    | [c] => simp at he
    | c1 :: c2 :: rest =>
      obtain ⟨d1, hd1⟩ := Option.isSome_iff_exists.mp (hv c1 (by simp))
      obtain ⟨d2, hd2⟩ := Option.isSome_iff_exists.mp (hv c2 (by simp))
      have hrest : (hexDecodeList rest).isSome := by
        apply ih rest
        · simp only [List.length_cons] at hl
          omega
        · intro c hc
          exact hv c (by simp [hc])
        · simp only [List.length_cons] at he ⊢
          omega
      obtain ⟨t, ht⟩ := Option.isSome_iff_exists.mp hrest
      simp only [hexDecodeList, hd1, hd2, ht, optionSome_bind]
      rfl

theorem hexDecodeList_isSome (l : List Char)
    (hv : ∀ c ∈ l, (hexCharVal c).isSome) (he : l.length % 2 = 0) :
    (hexDecodeList l).isSome :=
  hexDecodeList_isSome_fuel l.length l le_rfl hv he

theorem fmtHexPad_toList (w n : Nat) :
    (fmtHexPad w n).toList =
      List.replicate (w - (natToHex n).length) '0' ++ natToHex n := rfl

/-- `format!("{:0Nx}", n)` with even positive width `N` never panics
`reverse_byte_order`: the rendering is all hex digits of even length
whenever the value fits in `N` digits. -/
theorem reverseByteOrder_fmtHexPad (w n : Nat) (h1 : 1 ≤ w) (hw : w % 2 = 0)
    (hn : n < 16 ^ w) : ∃ v, reverseByteOrder (fmtHexPad w n) = some v := by
  have hlen := natToHex_length_le w n h1 hn
  have hchars : ∀ c ∈ (fmtHexPad w n).toList, (hexCharVal c).isSome := by
    rw [fmtHexPad_toList]
    intro c hc
    rcases List.mem_append.mp hc with h | h
    · rw [List.eq_of_mem_replicate h]
      decide
    · exact natToHex_chars n c h
  have heven : (fmtHexPad w n).toList.length % 2 = 0 := by
    rw [fmtHexPad_toList, List.length_append, List.length_replicate]
    omega
  have hsome : (hexDecode (fmtHexPad w n)).isSome :=
    hexDecodeList_isSome (fmtHexPad w n).toList hchars heven
  obtain ⟨bs, hbs⟩ := Option.isSome_iff_exists.mp hsome
  refine ⟨hexEncode bs.reverse, ?_⟩
  unfold reverseByteOrder
  rw [hbs]
  rfl

/-- The input serializer never hits the `reverse_byte_order` panic: the
`{:08x}` rendering of a `u32` bit pattern is eight hex digits. -/
theorem inputChunk_isSome (input : TransactionInput) (L : Nat) (H : String) :
    ∃ vout, inputChunk input L H =
      some (input.previousOutput.hash ++ vout ++ fmtHex2 L ++ H) := by
  obtain ⟨v, hv⟩ := reverseByteOrder_fmtHexPad 8
    (u32Pattern input.previousOutput.index) (by omega) (by omega)
    (by
      calc u32Pattern input.previousOutput.index
          < 4294967296 := u32Pattern_lt input.previousOutput.index
        _ ≤ 16 ^ 8 := by norm_num)
  refine ⟨v, ?_⟩
  unfold inputChunk
  rw [show fmtHex8 (u32Pattern input.previousOutput.index) =
    fmtHexPad 8 (u32Pattern input.previousOutput.index) from rfl, hv]
  rfl

theorem mapOptionList_exists {α β : Type} (f : α → Option β) (l : List α)
    (h : ∀ a ∈ l, ∃ b, f a = some b) :
    ∃ ys, mapOptionList f l = some ys := by
  induction l with
  | nil => exact ⟨[], rfl⟩
  | cons a t ih =>
    obtain ⟨b, hb⟩ := h a (by simp)
    obtain ⟨ys, hys⟩ := ih (fun x hx => h x (by simp [hx]))
    refine ⟨b :: ys, ?_⟩
    unfold mapOptionList
    rw [hb, hys]

/-- Claim C6 — whenever `sign` reaches its output (its panic points being
`new_public_key().unwrap()` and the `reverse_byte_order` unwrap on the
`{:02x}` output count, the latter hypothesised as `hoc` and the only one
`pre_sign` shares), it assembles one signature script
`<len><signature><len><pubkey>`, substitutes that same script (as the hex
of its ASCII bytes) into every input of the re-serialized transaction, and
every input's script-length field parses to the byte count of the script
string serialized into that input; the per-input serializer itself never
panics. -/
theorem sign_uniform_script (signData : List Nat → List Nat)
    (tx : Transaction) (key : Key) (pk : List Nat) (oc : String)
    (hpk : Key.newPublicKey key = .ok pk)
    (hoc : reverseByteOrder (fmtHex2 tx.txOut.length) = some oc) :
    ∃ (ps s : String) (chunks : List String),
      Transaction.preSign tx = some ps ∧
      s = sigScriptOf
        (signData (sha256Twice (asciiBytes (ps ++ fmtHex8 1))) ++ [0x01]) pk ∧
      mapOptionList (fun input =>
        inputChunk input s.length (hexEncode (asciiBytes s))) tx.txIn =
        some chunks ∧
      Transaction.sign signData tx key = some
        (tx.version.asVerString
          ++ fmtHex2 tx.txIn.length
          ++ String.join chunks
          ++ "ffffffff"
          ++ oc
          ++ String.join (tx.txOut.map outputChunk)
          ++ fmtHex8 tx.lockTime) ∧
      (∀ input ∈ tx.txIn, ∃ vout,
        inputChunk input s.length (hexEncode (asciiBytes s)) =
          some (input.previousOutput.hash ++ vout ++ fmtHex2 s.length
            ++ hexEncode (asciiBytes s))) ∧
      hexStrVal (fmtHex2 s.length) = some s.length ∧
      (hexEncode (asciiBytes s)).length = 2 * s.length := by
  have hex1 : ∀ input ∈ tx.txIn, ∃ b,
      inputChunk input input.utxoPkScript.length
        (hexEncode input.utxoPkScript) = some b := by
    intro input _
    obtain ⟨v, hv⟩ := inputChunk_isSome input input.utxoPkScript.length
      (hexEncode input.utxoPkScript)
    exact ⟨_, hv⟩
  obtain ⟨chunks0, hchunks0⟩ := mapOptionList_exists
    (fun input => inputChunk input input.utxoPkScript.length
      (hexEncode input.utxoPkScript)) tx.txIn hex1
  set Ps : String := tx.version.asVerString
    ++ fmtHex2 tx.txIn.length
    ++ String.join chunks0
    ++ "ffffffff"
    ++ oc
    ++ String.join (tx.txOut.map outputChunk)
    ++ fmtHex8 tx.lockTime with hPs
  have hps : Transaction.preSign tx = some Ps := by
    simp only [Transaction.preSign, hchunks0, optionSome_bind, hoc]
    rfl
  set S : String := sigScriptOf
    (signData (sha256Twice (asciiBytes (Ps ++ fmtHex8 1))) ++ [0x01]) pk
    with hS
  have hex2 : ∀ input ∈ tx.txIn, ∃ b,
      inputChunk input S.length (hexEncode (asciiBytes S)) = some b := by
    intro input _
    obtain ⟨v, hv⟩ := inputChunk_isSome input S.length (hexEncode (asciiBytes S))
    exact ⟨_, hv⟩
  obtain ⟨chunks, hchunks⟩ := mapOptionList_exists
    (fun input => inputChunk input S.length (hexEncode (asciiBytes S)))
    tx.txIn hex2
  have hsign : Transaction.sign signData tx key = some
      (tx.version.asVerString
        ++ fmtHex2 tx.txIn.length
        ++ String.join chunks
        ++ "ffffffff"
        ++ oc
        ++ String.join (tx.txOut.map outputChunk)
        ++ fmtHex8 tx.lockTime) := by
    rw [hS] at hchunks
    simp only [Transaction.sign, hps, hpk, optionSome_bind, hchunks, hoc]
    rfl
  refine ⟨Ps, S, chunks, hps, hS, hchunks, hsign, ?_, ?_, ?_⟩
  · intro input _
    exact inputChunk_isSome input S.length (hexEncode (asciiBytes S))
  · exact hexStrVal_fmtHexPad 2 S.length
  · rw [hexEncode_length, asciiBytes_length]

/-- Witness for C6: a two-input, one-output transaction signed with a
concrete key and a concrete stand-in for the external ECDSA signer; with
one output the `{:02x}` count is `"01"`, so the output-count reversal
succeeds and both hypotheses are discharged by evaluation. -/
theorem sign_uniform_script_witness :
    Key.newPublicKey keyOne = .ok (serializeCompressed (secpGx, secpGy)) ∧
    reverseByteOrder (fmtHex2 txTwoInputs.txOut.length) = some "01" ∧
    (∃ (ps s : String) (chunks : List String),
      Transaction.preSign txTwoInputs = some ps ∧
      s = sigScriptOf
        ((fun _ => List.replicate 70 0xab)
          (sha256Twice (asciiBytes (ps ++ fmtHex8 1))) ++ [0x01])
        (serializeCompressed (secpGx, secpGy)) ∧
      mapOptionList (fun input =>
        inputChunk input s.length (hexEncode (asciiBytes s)))
        txTwoInputs.txIn = some chunks ∧
      Transaction.sign (fun _ => List.replicate 70 0xab) txTwoInputs keyOne =
        some (txTwoInputs.version.asVerString
          ++ fmtHex2 txTwoInputs.txIn.length
          ++ String.join chunks
          ++ "ffffffff"
          ++ "01"
          ++ String.join (txTwoInputs.txOut.map outputChunk)
          ++ fmtHex8 txTwoInputs.lockTime) ∧
      (∀ input ∈ txTwoInputs.txIn, ∃ vout,
        inputChunk input s.length (hexEncode (asciiBytes s)) =
          some (input.previousOutput.hash ++ vout ++ fmtHex2 s.length
            ++ hexEncode (asciiBytes s))) ∧
      hexStrVal (fmtHex2 s.length) = some s.length ∧
      (hexEncode (asciiBytes s)).length = 2 * s.length) :=
  ⟨by decide, by decide,
   sign_uniform_script (fun _ => List.replicate 70 0xab) txTwoInputs keyOne
     (serializeCompressed (secpGx, secpGy)) "01" (by decide) (by decide)⟩
set_option maxHeartbeats 80000000

/-! ## Public-only derivation does not match private derivation (claim C5) -/

/-- Claim C5 fails on the code: at the scalar-one key and index 1, the
public-only derivation succeeds, the private derivation succeeds and its
child's public key computes, yet the first 33 bytes of the extended public
key differ from the private child's compressed public key and the trailing
32 bytes differ from the private child's chain code (the public path hashes
`pubkey || le32(index)` while the private path hashes `pubkey || le64(index)`,
and the private scalar arithmetic is the signed-little-endian computation of
C1). -/
theorem public_private_derivation_mismatch :
    Key.deriveChildPublicKey keyOne 1 = some (.ok c5Ext) ∧
    (Key.deriveChildPrivateKey keyOne 1 .normal).map
      (fun c => (c.newPublicKey, c.chainCode)) =
      .ok (.ok c5PrivChildPub, c5PrivChildChain) ∧
    c5Ext.take 33 ≠ c5PrivChildPub ∧
    c5Ext.drop 33 ≠ c5PrivChildChain := by
  refine ⟨by decide, by decide, by decide, by decide⟩

/-! ## Validation vectors for the modelled external primitives -/

/-- FIPS 180-4 test vector for the SHA-256 model. -/
theorem sha256_vector_abc :
    hexEncode (sha256 (asciiBytes "abc")) =
      "ba7816bf8f01cfea414140de5dae2223b00361a396177a9cb410ff61f20015ad" := by
  decide

/-- FIPS 180-4 test vector for the SHA-512 model. -/
theorem sha512_vector_abc :
    hexEncode (sha512 (asciiBytes "abc")) =
      "ddaf35a193617abacc417349ae20413112e6fa4e89a97ea20a9eeee64b55d39a2192992a274fc1a836ba3c23a3feebbd454d4423643ce80e2a9ac94fa54ca49f" := by
  decide

/-- Standard test vector for the RIPEMD-160 model. -/
theorem ripemd160_vector_abc :
    hexEncode (ripemd160 (asciiBytes "abc")) =
      "8eb208f7e05d987a9b044a8e98c6b087f15a0bfc" := by
  decide

/-- RFC 4231 test case 1 for the HMAC-SHA512 model. -/
theorem hmacSha512_vector_rfc4231 :
    hexEncode (hmacSha512 (asciiBytes "Hi There") (List.replicate 20 0x0b)) =
      "87aa7cdea5ef619d4ff0b4241a1d6cb02379f4e2ce4ec2787ad0b30545e17cdedaa833b7d6b8a702038b274eaea3f4e4be9d914eeb61f1702e696c203a126854" := by
  decide

/-- The point of scalar 2 on secp256k1, compressed (a standard vector for
the curve-arithmetic model). -/
theorem ecMul_vector_two :
    (ecMul 2 ecG).map (fun pt => hexEncode (serializeCompressed pt)) =
      some "02c6047f9441ed7d6d3045406e95c07cd85c778e4b8cef3ca7abac09b95c709ee5" := by
  decide

/-- The point of scalar 3 on secp256k1, compressed (exercises addition of
distinct points after a doubling). -/
theorem ecMul_vector_three :
    (ecMul 3 ecG).map (fun pt => hexEncode (serializeCompressed pt)) =
      some "02f9308a019258c31049344f85f89d5229b531c845836f99b08601f113bce036f9" := by
  decide

/-- The group order annihilates the generator. -/
theorem ecMul_vector_order : ecMul secpN ecG = none := by
  decide

end Waller
